import Mathlib

/-!
Verification of the audible-alert release-detection pipeline.

The development shallowly embeds the core of the repository (the two
near-duplicate variants `script.py` and `repl.py`/`audible_client.py`/
`models.py`): the owned-series grouper, the per-series release prober,
the fan-out over probes, the wishlist ranker and the report formatter.

Python `datetime` values are encoded as a count of seconds on the
proleptic Gregorian calendar (a strictly monotone encoding of
`(year, month, day, hour, minute, second)`), so comparisons and
`timedelta` arithmetic of the source become `Nat` comparisons and
subtraction.  Fallible Python code (uncaught exceptions) is embedded
with `Except String`.
-/

namespace Audible

deriving instance DecidableEq for Except

/-- Gregorian leap-year rule, as used by Python's `datetime` module. -/
def isLeap (y : Nat) : Bool := y % 4 == 0 && (y % 100 != 0 || y % 400 == 0)

/-- Number of days in month `m` (counted 1..12) of year `y`. -/
def daysInMonth (y m : Nat) : Nat :=
  if m = 2 then (if isLeap y then 29 else 28)
  else if m = 4 ∨ m = 6 ∨ m = 9 ∨ m = 11 then 30
  else 31

/-- Days in all years strictly before year `y` (proleptic Gregorian). -/
def daysBeforeYear (y : Nat) : Nat :=
  365 * (y - 1) + (y - 1) / 4 + (y - 1) / 400 - (y - 1) / 100

/-- Days in the months of year `y` strictly before month `m`. -/
def daysBeforeMonth (y m : Nat) : Nat :=
  (List.range (m - 1)).foldl (fun a i => a + daysInMonth y (i + 1)) 0

/-- Ordinal day number of a calendar date, as in Python
`date.toordinal` (the ordinal of 0001-01-01 is 1). -/
def ordinalOf (y m d : Nat) : Nat := daysBeforeYear y + daysBeforeMonth y m + d

/-- A Python `datetime`, encoded as seconds: day ordinal times 86400
plus the seconds elapsed on that day. -/
def mkDT (y m d h mi s : Nat) : Nat :=
  ordinalOf y m d * 86400 + h * 3600 + mi * 60 + s

/-- Zero-padded two-digit rendering, as in Python `timedelta` formatting. -/
def pad2 (n : Nat) : String := if n < 10 then "0" ++ toString n else toString n

/-- Rendering of a nonnegative Python `timedelta` of `t` seconds by `str`:
`H:MM:SS`, preceded by a day count when it is nonzero. -/
def timedelta_str (t : Nat) : String :=
  let days := t / 86400
  let rem := t % 86400
  let core := toString (rem / 3600) ++ ":" ++ pad2 (rem % 3600 / 60) ++ ":" ++ pad2 (rem % 60)
  if days = 0 then core
  else if days = 1 then "1 day, " ++ core
  else toString days ++ " days, " ++ core

/-- Python `dt.replace(hour=h)`: keep the day, minute and second of the
encoded datetime and substitute the hour field. -/
def replace_hour (dt h : Nat) : Nat :=
  (dt / 86400) * 86400 + h * 3600 + dt % 3600

/-- Embedding of `as_relative` (`src/repl.py` lines 111-125 and
`src/script.py` lines 158-170).  The source reads the clock with
`datetime.today()`; here the current moment is the parameter `today`
(microseconds already truncated, since the encoding has second
resolution).  For a positive Python `timedelta`, `.days` is the floor
of the difference in days, and `f-string` interpolation of the
`timedelta` itself yields `timedelta_str`. -/
def as_relative (today release : Nat) : String :=
  let r := replace_hour release 17
  if r ≤ today then ""
  else
    let diff := r - today
    if diff / 86400 > 0 then ": in " ++ toString (diff / 86400) ++ " days"
    else ": in " ++ timedelta_str diff

/-- Embedding of the `BookInfo` dataclass of `src/script.py` (the
variant whose field list matches every constructor call in the
repository); `release_date` is an encoded datetime. -/
structure BookInfo where
  title : String
  series : String
  release_date : Nat
  cover_img : String := ""
deriving DecidableEq, Repr

/-- Embedding of the `Series` dataclass (`src/models.py`,
`src/script.py`). -/
structure Series where
  title : String
  url : String
  latest : Option BookInfo := none
deriving DecidableEq, Repr

/-- Sort key of one book inside `display`: the Python tuple
`(b.release_date, b.series)`. -/
def by_release_date (b : BookInfo) : Nat × String := (b.release_date, b.series)

/-- Lexicographic order on `(datetime, series-title)` keys — Python
tuple comparison, non-strict form. -/
def pairLE (p q : Nat × String) : Prop := p.1 < q.1 ∨ (p.1 = q.1 ∧ p.2 ≤ q.2)

/-- Lexicographic order on `(datetime, series-title)` keys — Python
tuple comparison, strict form. -/
def pairLT (p q : Nat × String) : Prop := p.1 < q.1 ∨ (p.1 = q.1 ∧ p.2 < q.2)

instance : DecidableRel pairLE := fun p q => by
  unfold pairLE; infer_instance

instance : DecidableRel pairLT := fun p q => by
  unfold pairLT; infer_instance

/-- Python `min(b :: l, key=by_release_date)`: the first element with
the least key (later elements replace the current one only when their
key is strictly smaller). -/
def minBook (b : BookInfo) (l : List BookInfo) : BookInfo :=
  l.foldl (fun c x => if pairLT (by_release_date x) (by_release_date c) then x else c) b

/-- Sort key of one group inside `display`: the `(release_date, series)`
pair of the minimal book of the group.  `display` filters out empty
groups before ever taking a minimum, so the empty case is never reached
(Python `min` would raise there). -/
def by_min_release (g : List BookInfo) : Nat × String :=
  match g with
  | [] => (0, "")
  | b :: bs => by_release_date (minBook b bs)

/-- Group comparison used to sort the report: by `by_min_release` keys. -/
def groupLE (g h : List BookInfo) : Prop := pairLE (by_min_release g) (by_min_release h)

instance : DecidableRel groupLE := fun g h => by
  unfold groupLE; infer_instance

/-- The grouping-and-sorting stage of `display` (`src/repl.py` lines
127-141, `src/script.py` lines 203-217): drop empty per-series lists,
then sort the remaining groups by `by_min_release` ascending.  Python
`sorted` is a stable sort, and a stable sort under a total preorder is
uniquely determined, so insertion sort realises it. -/
def display_sorted (releases : List (List BookInfo)) : List (List BookInfo) :=
  List.insertionSort groupLE (releases.filter (fun r => ¬ r.isEmpty))

/-- Rendering of one group: a header line with the series title of the
first book, then one bullet line per book with its relative-time
suffix (whitespace normalised; the source builds the same lines with
f-strings and `dedent`). -/
def formatGroup (today : Nat) (books : List BookInfo) : String :=
  match books with
  | [] => ""
  | b :: _ =>
    "# " ++ b.series ++
      String.join (books.map
        (fun bk => "\n  - " ++ bk.title ++ " " ++ as_relative today bk.release_date))

/-- Embedding of `display`: sorted groups, each rendered to one text
block. -/
def display (today : Nat) (releases : List (List BookInfo)) : List String :=
  (display_sorted releases).map (formatGroup today)

/-- Group key in the words of the spec: the pair of the minimum release
date in the group and the series title (of its books). -/
def specGroupKey (g : List BookInfo) : Nat × String :=
  match g with
  | [] => (0, "")
  | b :: bs => (bs.foldl (fun m x => min m x.release_date) b.release_date, b.series)

theorem pairLE_total : ∀ p q : Nat × String, pairLE p q ∨ pairLE q p := by
  intro p q
  rcases Nat.lt_trichotomy p.1 q.1 with h | h | h
  · exact Or.inl (Or.inl h)
  · rcases le_total p.2 q.2 with h2 | h2
    · exact Or.inl (Or.inr ⟨h, h2⟩)
    · exact Or.inr (Or.inr ⟨h.symm, h2⟩)
  · exact Or.inr (Or.inl h)

theorem pairLE_trans : ∀ {p q r : Nat × String}, pairLE p q → pairLE q r → pairLE p r := by
  rintro p q r (h1 | ⟨e1, l1⟩) (h2 | ⟨e2, l2⟩)
  · exact Or.inl (Nat.lt_trans h1 h2)
  · exact Or.inl (e2 ▸ h1)
  · exact Or.inl (e1 ▸ h2)
  · exact Or.inr ⟨e1.trans e2, le_trans l1 l2⟩

instance : IsTotal (List BookInfo) groupLE :=
  ⟨fun g h => pairLE_total (by_min_release g) (by_min_release h)⟩

instance : IsTrans (List BookInfo) groupLE :=
  ⟨fun _ _ _ h1 h2 => pairLE_trans h1 h2⟩

theorem minStep_date (b x : BookInfo) :
    (if pairLT (by_release_date x) (by_release_date b) then x else b).release_date
      = min b.release_date x.release_date := by
  by_cases h : pairLT (by_release_date x) (by_release_date b)
  · rw [if_pos h]
    rcases h with h | ⟨h, _⟩
    · exact (min_eq_right (le_of_lt h)).symm
    · simp only [by_release_date] at h
      rw [h]; simp
  · rw [if_neg h]
    rcases Nat.lt_or_ge x.release_date b.release_date with hlt | hge
    · exact absurd (Or.inl hlt) h
    · exact (min_eq_left hge).symm

theorem minBook_date : ∀ (bs : List BookInfo) (b : BookInfo),
    (minBook b bs).release_date
      = bs.foldl (fun m x => min m x.release_date) b.release_date := by
  intro bs
  induction bs with
  | nil => intro b; rfl
  | cons x bs ih =>
    intro b
    show (minBook (if pairLT (by_release_date x) (by_release_date b) then x else b)
            bs).release_date = _
    rw [ih, minStep_date]
    rfl

theorem minBook_mem : ∀ (bs : List BookInfo) (b : BookInfo), minBook b bs ∈ b :: bs := by
  intro bs
  induction bs with
  | nil => intro b; exact List.mem_singleton.2 rfl
  | cons x bs ih =>
    intro b
    show minBook (if pairLT (by_release_date x) (by_release_date b) then x else b) bs
      ∈ b :: x :: bs
    rcases List.mem_cons.1
        (ih (if pairLT (by_release_date x) (by_release_date b) then x else b)) with h | h
    · rw [h]
      by_cases hc : pairLT (by_release_date x) (by_release_date b)
      · rw [if_pos hc]
        exact List.mem_cons_of_mem _ (List.mem_cons_self _ _)
      · rw [if_neg hc]
        exact List.mem_cons_self _ _
    · exact List.mem_cons_of_mem _ (List.mem_cons_of_mem _ h)

theorem by_min_release_eq_specGroupKey (g : List BookInfo) (hne : g ≠ [])
    (huni : ∀ b1 ∈ g, ∀ b2 ∈ g, b1.series = b2.series) :
    by_min_release g = specGroupKey g := by
  match g, hne with
  | b :: bs, _ =>
    show by_release_date (minBook b bs) = _
    have hdate := minBook_date bs b
    have hser : (minBook b bs).series = b.series :=
      huni _ (minBook_mem bs b) b (List.mem_cons_self _ _)
    simp only [by_release_date, specGroupKey, hdate, hser]

/-- C6: `display` drops the empty per-series lists and orders the
remaining groups ascending by the pair (minimum release date in the
group, series title); the hypothesis records that each input group is
the output of one probe and hence mentions a single series title. -/
theorem c6_display_group_order (releases : List (List BookInfo))
    (huni : ∀ g ∈ releases, ∀ b1 ∈ g, ∀ b2 ∈ g, b1.series = b2.series) :
    (∀ g ∈ display_sorted releases, g ≠ []) ∧
    (display_sorted releases).Perm (releases.filter (fun r => ¬ r.isEmpty)) ∧
    (display_sorted releases).Sorted (fun g h => pairLE (specGroupKey g) (specGroupKey h)) := by
  have hperm : (display_sorted releases).Perm (releases.filter (fun r => ¬ r.isEmpty)) :=
    List.perm_insertionSort groupLE _
  have hmemfilter : ∀ g ∈ display_sorted releases,
      g ∈ releases ∧ g.isEmpty = false := by
    intro g hg
    have := hperm.mem_iff.1 hg
    have h2 := List.mem_filter.1 this
    refine ⟨h2.1, ?_⟩
    simpa using h2.2
  have hne : ∀ g ∈ display_sorted releases, g ≠ [] := by
    intro g hg
    have h := (hmemfilter g hg).2
    intro hcon
    rw [hcon] at h
    simp at h
  refine ⟨hne, hperm, ?_⟩
  have hs : (display_sorted releases).Sorted groupLE :=
    List.sorted_insertionSort groupLE _
  refine List.Pairwise.imp_of_mem ?_ hs
  intro g h hg hh hle
  have hgk := by_min_release_eq_specGroupKey g (hne g hg)
    (huni g (hmemfilter g hg).1)
  have hhk := by_min_release_eq_specGroupKey h (hne h hh)
    (huni h (hmemfilter h hh).1)
  rw [← hgk, ← hhk]
  exact hle

/-- Concrete report input used to witness C6: one empty probe result
and two nonempty single-series groups. -/
def c6input : List (List BookInfo) :=
  [[], [⟨"B1", "S2", mkDT 2024 2 1 0 0 0, ""⟩],
   [⟨"A1", "S1", mkDT 2024 1 20 0 0 0, ""⟩, ⟨"A2", "S1", mkDT 2024 1 9 0 0 0, ""⟩]]

/-- Witness for C6 at a concrete list of probe results. -/
theorem c6_display_group_order_witness :
    (∀ g ∈ display_sorted c6input, g ≠ []) ∧
    (display_sorted c6input).Perm (c6input.filter (fun r => ¬ r.isEmpty)) ∧
    (display_sorted c6input).Sorted (fun g h => pairLE (specGroupKey g) (specGroupKey h)) :=
  c6_display_group_order c6input (by decide)

/-- Leftmost match of the pattern digits-dash-digits-dash-digits at the
head of the character list, each digit run taken greedily (the `re`
semantics of the raw pattern used in `get_release_date`). -/
def matchDigitsDashes (cs : List Char) : Option (List Char) :=
  let p1 := cs.span (fun c => c.isDigit)
  if p1.1.isEmpty then none else
  match p1.2 with
  | '-' :: r2 =>
    let p2 := r2.span (fun c => c.isDigit)
    if p2.1.isEmpty then none else
    match p2.2 with
    | '-' :: r4 =>
      let p3 := r4.span (fun c => c.isDigit)
      if p3.1.isEmpty then none else
      some (p1.1 ++ '-' :: (p2.1 ++ '-' :: p3.1))
    | _ => none
  | _ => none

/-- Scan for the leftmost starting position at which the digits-dash
pattern matches. -/
def searchDigitsDashes : List Char → Option (List Char)
  | [] => none
  | c :: cs =>
    match matchDigitsDashes (c :: cs) with
    | some m => some m
    | none => searchDigitsDashes cs

/-- Embedding of Python `re.search` for the raw pattern used by
`get_release_date`: the leftmost, greedy match as a string. -/
def re_search_date (s : String) : Option String :=
  (searchDigitsDashes s.data).map (fun cs => String.mk cs)

/-- Numeric value of an all-digit character run; `none` when the run is
empty or holds a non-digit. -/
def digitsToNat (cs : List Char) : Option Nat :=
  if cs.isEmpty then none
  else if cs.all (fun c => c.isDigit) then
    some (cs.foldl (fun a c => a * 10 + (c.toNat - 48)) 0)
  else none

/-- Splitting of a character list at every dash, the semantics of
Python `s.split("-")` restricted to the one-character separator the
date formats use. -/
def splitDashes : List Char → List (List Char)
  | [] => [[]]
  | c :: rest =>
    let r := splitDashes rest
    if c = '-' then [] :: r
    else
      match r with
      | [] => [[c]]
      | g :: gs => (c :: g) :: gs

/-- CPython strptime field for one of the directives %d and %m: one or
two digits whose value lies in `lo..hi`. -/
def parseField2 (cs : List Char) (lo hi : Nat) : Option Nat :=
  match digitsToNat cs with
  | none => none
  | some v => if cs.length ≤ 2 ∧ lo ≤ v ∧ v ≤ hi then some v else none

/-- CPython strptime field for the directive %Y: exactly four digits. -/
def parseYear4 (cs : List Char) : Option Nat :=
  match digitsToNat cs with
  | none => none
  | some v => if cs.length = 4 then some v else none

/-- Validity checks of the Python `datetime` constructor: year 1..9999,
month 1..12, day within the month; on success the encoded midnight
datetime. -/
def makeDate (y m d : Nat) : Option Nat :=
  if 1 ≤ y ∧ y ≤ 9999 ∧ 1 ≤ m ∧ m ≤ 12 ∧ 1 ≤ d ∧ d ≤ daysInMonth y m
  then some (mkDT y m d 0 0 0) else none

/-- Embedding of `datetime.strptime(s, %d-%m-%Y)`: the string must be
exactly a day field, a dash, a month field, a dash and a four-digit
year, and the triple must form a valid calendar date. -/
def strptime_dmy (s : String) : Option Nat :=
  match splitDashes s.data with
  | [ds, ms, ys] =>
    match parseField2 ds 1 31, parseField2 ms 1 12, parseYear4 ys with
    | some d, some m, some y => makeDate y m d
    | _, _, _ => none
  | _ => none

/-- Embedding of `datetime.strptime(s, %Y-%m-%d)`, the owned-library
ingestion format. -/
def strptime_ymd (s : String) : Option Nat :=
  match splitDashes s.data with
  | [ys, ms, ds] =>
    match parseYear4 ys, parseField2 ms 1 12, parseField2 ds 1 31 with
    | some y, some m, some d => makeDate y m d
    | _, _, _ => none
  | _ => none

/-- One release-date label node of a fetched series listing page,
together with the data the external DOM collaborator extracts from its
enclosing list item: the first heading-link text and the first image
source. -/
structure ReleaseNode where
  labelText : String
  title : String
  cover_img : String
deriving DecidableEq, Repr

/-- Embedding of the nested `get_release_date` of
`check_new_releases_in_series` (`src/audible_client.py` lines 129-147)
and `check_releases` (`src/script.py` lines 182-200): search the label
text for the digits-dash pattern — `.group(0)` on a failed search
raises `AttributeError` — then parse it as day-month-year, raising
`ValueError` on failure. -/
def get_release_date (node : ReleaseNode) : Except String Nat :=
  match re_search_date node.labelText with
  | none => .error "AttributeError: NoneType object has no attribute group"
  | some m =>
    match strptime_dmy m with
    | none => .error ("ValueError: time data " ++ m ++ " does not match format %d-%m-%Y")
    | some dt => .ok dt

/-- Embedding of the nested `get_book_info`: build a `BookInfo` from
the node's enclosing list item. -/
def get_book_info (seriesTitle : String) (node : ReleaseNode) (release_date : Nat) : BookInfo :=
  ⟨node.title, seriesTitle, release_date, node.cover_img⟩

/-- The final list comprehension of the prober, node by node in
document order: evaluate `get_release_date` (its exceptions abort the
whole comprehension), keep the node when its date is strictly newer
than `d0`. -/
def checkNodes (stitle : String) (d0 : Nat) : List ReleaseNode → Except String (List BookInfo)
  | [] => .ok []
  | n :: ns => do
    let rd ← get_release_date n
    let rest ← checkNodes stitle d0 ns
    if d0 < rd then .ok (get_book_info stitle n rd :: rest)
    else .ok rest

/-- Embedding of `check_releases` / `check_new_releases_in_series` from
the parsed page onward (URL construction and the HTTP fetch are the
external transport of the spec; the DOM collaborator yields the node
sequence `releases` in document order). -/
def check_releases (series : Series) (releases : List ReleaseNode) :
    Except String (List BookInfo) :=
  match series.latest with
  | none => .error "AttributeError: NoneType object has no attribute release_date"
  | some latest => checkNodes series.title latest.release_date releases

/-- The parsed date of a node, defaulting to 0; meaningful whenever
`get_release_date` succeeds on the node. -/
def nodeDate (node : ReleaseNode) : Nat :=
  match get_release_date node with
  | .ok d => d
  | .error _ => 0

/-- A series state as the grouper hands it to the prober. -/
def c2series : Series :=
  ⟨"Foo", "/pd/Foo-Audiobook/B0SAMPLE", some ⟨"Foo 2", "Foo", mkDT 2023 1 1 0 0 0, ""⟩⟩

/-- A label node with no extractable date and one with a parseable
date. -/
def c2badNode : ReleaseNode := ⟨"Release date:", "Foo 4", "img4"⟩

/-- A label node carrying the parseable date 01-06-2024. -/
def c2goodNode : ReleaseNode := ⟨"Release date: 01-06-2024", "Foo 3", "img3"⟩

/-- C2 counterexample: on a page holding one node without an
extractable date and one healthy node, the probe raises
(`AttributeError`) and returns no records at all, although the healthy
node alone would have contributed a record — so a failing node does
abort the series. -/
theorem c2_bad_node_aborts_series :
    check_releases c2series [c2badNode, c2goodNode]
        = .error "AttributeError: NoneType object has no attribute group" ∧
    check_releases c2series [c2goodNode]
        = .ok [⟨"Foo 3", "Foo", mkDT 2024 6 1 0 0 0, "img3"⟩] := by
  exact ⟨by decide, by decide⟩

theorem checkNodes_bad (stitle : String) (d0 : Nat) (page : List ReleaseNode)
    (h : ∃ n ∈ page, (get_release_date n).isOk = false) :
    (checkNodes stitle d0 page).isOk = false := by
  induction page with
  | nil => simp at h
  | cons n ns ih =>
    rcases h with ⟨m, hm, hbad⟩
    show (checkNodes stitle d0 (n :: ns)).isOk = false
    unfold checkNodes
    rcases List.mem_cons.1 hm with rfl | hmem
    · cases he : get_release_date m with
      | error e => simp [he, bind, Except.bind, Except.isOk, Except.toBool]
      | ok d => rw [he] at hbad; simp [Except.isOk, Except.toBool] at hbad
    · cases he : get_release_date n with
      | error e => simp [he, bind, Except.bind, Except.isOk, Except.toBool]
      | ok d =>
        have hih := ih ⟨m, hmem, hbad⟩
        cases hr : checkNodes stitle d0 ns with
        | error e2 => simp [he, hr, bind, Except.bind, Except.isOk, Except.toBool]
        | ok l => rw [hr] at hih; simp [Except.isOk, Except.toBool] at hih

/-- C2 (amended): a release-date label node whose text does not contain
an extractable and parseable date raises and aborts the whole series
probe: whenever any node of the page fails extraction or parsing, the
probe returns an error, and no record of any node of that page is
delivered. -/
theorem c2_unparseable_node_aborts (series : Series) (page : List ReleaseNode)
    (h : ∃ n ∈ page, (get_release_date n).isOk = false) :
    (check_releases series page).isOk = false := by
  unfold check_releases
  cases series.latest with
  | none => rfl
  | some latest => exact checkNodes_bad series.title latest.release_date page h

/-- Witness for C2 (amended) at the concrete two-node page. -/
theorem c2_unparseable_node_aborts_witness :
    (check_releases c2series [c2badNode, c2goodNode]).isOk = false :=
  c2_unparseable_node_aborts c2series [c2badNode, c2goodNode]
    ⟨c2badNode, by decide, by decide⟩

/-- The prober output described by the spec: the page's records whose
parsed date is strictly newer than `d0`, in document order. -/
def proberResult (stitle : String) (d0 : Nat) (page : List ReleaseNode) : List BookInfo :=
  (page.filter (fun n => d0 < nodeDate n)).map
    (fun n => get_book_info stitle n (nodeDate n))

theorem checkNodes_ok (stitle : String) (d0 : Nat) (page : List ReleaseNode)
    (hparse : ∀ n ∈ page, (get_release_date n).isOk = true) :
    checkNodes stitle d0 page = .ok (proberResult stitle d0 page) := by
  induction page with
  | nil => rfl
  | cons n ns ih =>
    have hn := hparse n (List.mem_cons_self n ns)
    have hns : ∀ m ∈ ns, (get_release_date m).isOk = true :=
      fun m hm => hparse m (List.mem_cons_of_mem _ hm)
    cases he : get_release_date n with
    | error e => rw [he] at hn; simp [Except.isOk, Except.toBool] at hn
    | ok d =>
      have hd : nodeDate n = d := by unfold nodeDate; rw [he]
      show checkNodes stitle d0 (n :: ns) = _
      unfold checkNodes
      rw [he]
      simp only [bind, Except.bind]
      rw [ih hns]
      by_cases hc : d0 < d
      · simp [proberResult, List.filter_cons, hd, hc]
      · simp [proberResult, List.filter_cons, hd, hc]

/-- C4: when every release-date label node of the page parses, the
prober returns exactly the records whose release date is strictly
greater than the latest-owned date `D`, in document order, and no
record with a date at or before `D` ever appears. -/
theorem c4_prober_filter (series : Series) (latest : BookInfo) (page : List ReleaseNode)
    (hl : series.latest = some latest)
    (hparse : ∀ n ∈ page, (get_release_date n).isOk = true) :
    check_releases series page
        = .ok (proberResult series.title latest.release_date page) ∧
    (∀ b ∈ proberResult series.title latest.release_date page,
        latest.release_date < b.release_date) ∧
    (∀ b, b ∈ proberResult series.title latest.release_date page ↔
        ∃ n ∈ page, latest.release_date < nodeDate n ∧
          b = get_book_info series.title n (nodeDate n)) := by
  refine ⟨?_, ?_, ?_⟩
  · unfold check_releases
    rw [hl]
    exact checkNodes_ok series.title latest.release_date page hparse
  · intro b hb
    rcases List.mem_map.1 hb with ⟨n, hn, rfl⟩
    have h2 := (List.mem_filter.1 hn).2
    simp only [decide_eq_true_eq] at h2
    exact h2
  · intro b
    simp only [proberResult, List.mem_map, List.mem_filter, decide_eq_true_eq]
    constructor
    · rintro ⟨n, ⟨hmem, hlt⟩, rfl⟩
      exact ⟨n, hmem, hlt, rfl⟩
    · rintro ⟨n, hmem, hlt, rfl⟩
      exact ⟨n, ⟨hmem, hlt⟩, rfl⟩

/-- The series of the end-to-end scenario: latest owned release date
2023-06-01. -/
def c4series : Series :=
  ⟨"Foo", "/pd/Foo-Audiobook/B0SAMPLE", some ⟨"Foo 2", "Foo", mkDT 2023 6 1 0 0 0, ""⟩⟩

/-- A listing page whose label nodes carry the dates 01-06-2023 (equal
to the latest owned, to be excluded) and 01-01-2024 (strictly newer,
to be included). -/
def c4page : List ReleaseNode :=
  [⟨"Release date: 01-06-2023", "Foo 2", "img2"⟩,
   ⟨"Release date: 01-01-2024", "Foo 3", "img3"⟩]

/-- Witness for C4 at the end-to-end scenario of the spec. -/
theorem c4_prober_filter_witness :
    check_releases c4series c4page
        = .ok (proberResult "Foo" (mkDT 2023 6 1 0 0 0) c4page) ∧
    (∀ b ∈ proberResult "Foo" (mkDT 2023 6 1 0 0 0) c4page,
        mkDT 2023 6 1 0 0 0 < b.release_date) ∧
    (∀ b, b ∈ proberResult "Foo" (mkDT 2023 6 1 0 0 0) c4page ↔
        ∃ n ∈ c4page, mkDT 2023 6 1 0 0 0 < nodeDate n ∧
          b = get_book_info "Foo" n (nodeDate n)) :=
  c4_prober_filter c4series ⟨"Foo 2", "Foo", mkDT 2023 6 1 0 0 0, ""⟩ c4page rfl (by decide)

/-- Embedding of the joint await of the `new` command
(`await tqdm.gather(...)`, the default `asyncio` exception policy):
the gather yields the list of all probe results when every probe
succeeds, and re-raises a failed probe's exception to the awaiting
command otherwise. -/
def gather : List (Except String (List BookInfo)) → Except String (List (List BookInfo))
  | [] => .ok []
  | o :: os => do
    let r ← o
    let rs ← gather os
    .ok (r :: rs)

/-- The post-probe tail of the `new` command (`get_` in `src/repl.py`
lines 45-60 and `src/script.py` lines 265-285): await the fan-out,
then hand the collected per-series lists to `display`.  Per-series
fetching and parsing is the probe itself; an `outcomes` entry is one
probe's termination (its result list, or the exception it raised). -/
def new_command (today : Nat) (outcomes : List (Except String (List BookInfo))) :
    Except String (List String) :=
  match gather outcomes with
  | .error e => .error e
  | .ok rs => .ok (display today rs)

theorem gather_ok (outcomes : List (Except String (List BookInfo)))
    (h : ∀ o ∈ outcomes, o.isOk = true) :
    gather outcomes = .ok (outcomes.filterMap Except.toOption) := by
  induction outcomes with
  | nil => rfl
  | cons o os ih =>
    have ho := h o (List.mem_cons_self o os)
    cases o with
    | error e => simp [Except.isOk, Except.toBool] at ho
    | ok r =>
      show gather (Except.ok r :: os) = _
      unfold gather
      rw [ih (fun m hm => h m (List.mem_cons_of_mem _ hm))]
      simp [Except.toOption, bind, Except.bind, List.filterMap_cons]

theorem gather_error (outcomes : List (Except String (List BookInfo)))
    (h : ∃ o ∈ outcomes, o.isOk = false) :
    (gather outcomes).isOk = false := by
  induction outcomes with
  | nil => simp at h
  | cons o os ih =>
    rcases h with ⟨m, hm, hbad⟩
    rcases List.mem_cons.1 hm with rfl | hmem
    · cases m with
      | error e => rfl
      | ok r => simp [Except.isOk, Except.toBool] at hbad
    · cases o with
      | error e => rfl
      | ok r =>
        have hih := ih ⟨m, hmem, hbad⟩
        show (gather (Except.ok r :: os)).isOk = false
        unfold gather
        cases hg : gather os with
        | error e2 => simp [hg, bind, Except.bind, Except.isOk, Except.toBool]
        | ok l => rw [hg] at hih; simp [Except.isOk, Except.toBool] at hih

/-- C1 counterexample: in a run of `new` over two tracked series in
which the first probe raises (a timeout) and the second succeeds with
a nonempty release list, the whole run re-raises the exception and no
report is produced — the sibling's successful outcome is not delivered
to the report formatter, although formatting it alone would have
produced a nonempty report. -/
theorem c1_failed_probe_aborts_run :
    new_command (mkDT 2024 1 10 12 0 0)
        [.error "httpx.ReadTimeout", .ok [⟨"Foo 3", "Foo", mkDT 2024 6 1 0 0 0, "img3"⟩]]
      = .error "httpx.ReadTimeout" ∧
    display (mkDT 2024 1 10 12 0 0) [[⟨"Foo 3", "Foo", mkDT 2024 6 1 0 0 0, "img3"⟩]] ≠ [] := by
  refine ⟨rfl, by decide⟩

/-- C1 (amended): the fan-out waits for all probes jointly; when every
probe succeeds, every per-series outcome (including empty lists) is
delivered to the report formatter; but as soon as any probe fails, the
failure propagates out of the joint await, the run is aborted, and no
other series' outcome is delivered. -/
theorem c1_fanout_all_or_abort (today : Nat)
    (outcomes : List (Except String (List BookInfo))) :
    ((∀ o ∈ outcomes, o.isOk = true) →
      new_command today outcomes
        = .ok (display today (outcomes.filterMap Except.toOption))) ∧
    ((∃ o ∈ outcomes, o.isOk = false) →
      (new_command today outcomes).isOk = false) := by
  constructor
  · intro h
    unfold new_command
    rw [gather_ok outcomes h]
  · intro h
    unfold new_command
    have := gather_error outcomes h
    cases hg : gather outcomes with
    | error e => rfl
    | ok l => rw [hg] at this; simp [Except.isOk, Except.toBool] at this

/-- Witness for C1 (amended): one all-success run is fully delivered,
and one run with a failed probe yields no report. -/
theorem c1_fanout_all_or_abort_witness :
    new_command (mkDT 2024 1 10 12 0 0)
        [Except.ok [⟨"Foo 3", "Foo", mkDT 2024 6 1 0 0 0, "img3"⟩], Except.ok []]
      = .ok (display (mkDT 2024 1 10 12 0 0)
          ([Except.ok [⟨"Foo 3", "Foo", mkDT 2024 6 1 0 0 0, "img3"⟩],
            (Except.ok [] : Except String (List BookInfo))].filterMap Except.toOption)) ∧
    (new_command (mkDT 2024 1 10 12 0 0)
        [Except.error "httpx.ReadTimeout",
         Except.ok [⟨"Foo 3", "Foo", mkDT 2024 6 1 0 0 0, "img3"⟩]]).isOk = false :=
  ⟨(c1_fanout_all_or_abort (mkDT 2024 1 10 12 0 0) _).1 (by decide),
   (c1_fanout_all_or_abort (mkDT 2024 1 10 12 0 0) _).2
     ⟨Except.error "httpx.ReadTimeout", by decide, by decide⟩⟩

/-- C7 counterexample: with the current moment 2024-01-10T12:00:00 and
release date 2024-01-15, the code renders ": in 5 days" (the Python
timedelta from 12:00 Jan-10 to 17:00 Jan-15 has `.days = 5`), not the
": in 4 days" the claim states. -/
theorem c7_jan15_counterexample :
    Audible.as_relative (mkDT 2024 1 10 12 0 0) (mkDT 2024 1 15 0 0 0) ≠ ": in 4 days" := by
  decide

/-- C7 (amended): with the current moment fixed at 2024-01-10T12:00:00
and the 17:00 release-day cutoff, releaseDate 2024-01-09 renders the
empty string, 2024-01-15 renders ": in 5 days" (floor-days of the
5-day-5-hour difference), and 2024-01-10 renders the exact remaining
duration ": in 5:00:00". -/
theorem c7_relative_time_concrete :
    as_relative (mkDT 2024 1 10 12 0 0) (mkDT 2024 1 9 0 0 0) = "" ∧
    as_relative (mkDT 2024 1 10 12 0 0) (mkDT 2024 1 15 0 0 0) = ": in 5 days" ∧
    as_relative (mkDT 2024 1 10 12 0 0) (mkDT 2024 1 10 0 0 0) = ": in 5:00:00" := by
  refine ⟨by decide, by decide, by decide⟩

/-- One owned item as the commerce client's library query returns it:
a title, a list of series memberships (each a title and a url) and a
release-date string in YYYY-MM-DD form. -/
structure LibraryBook where
  title : String
  series : List (String × String)
  release_date : String
deriving DecidableEq, Repr

/-- The first series membership of an item — the source reads
`book.series[0]`; meaningful when the membership list is nonempty. -/
def firstSeries (b : LibraryBook) : String × String := b.series.headD ("", "")

/-- The dict manipulation of one pass of the grouping loop, after the
item's `BookInfo` `⟨btitle, stitle, d, ""⟩` has been built:
`setdefault` the series entry (appending a fresh entry preserves
insertion order) and replace the stored `latest` only when `d` is
strictly newer; reading `.release_date` off an absent `latest` would
raise. -/
def grouperInsert (owned : List (String × Series)) (stitle surl btitle : String) (d : Nat) :
    Except String (List (String × Series)) :=
  match owned.find? (fun p => p.1 == stitle) with
  | none => .ok (owned ++ [(stitle, ⟨stitle, surl, some ⟨btitle, stitle, d, ""⟩⟩)])
  | some p =>
    match p.2.latest with
    | none => .error "AttributeError: NoneType object has no attribute release_date"
    | some cur =>
      if cur.release_date < d then
        .ok (owned.map (fun q =>
          if q.1 == stitle then (q.1, ⟨q.2.title, q.2.url, some ⟨btitle, stitle, d, ""⟩⟩) else q))
      else .ok owned

/-- One pass of the grouping loop of `get_series_by_latest_owned_title`
(`src/audible_client.py` lines 90-119, `src/script.py` lines 126-155)
over one owned item, on the insertion-ordered dict `owned`: read the
first series membership, parse the item's release date (`strptime`
raises on malformed data) and update the dict. -/
def grouperStep (owned : List (String × Series)) (b : LibraryBook) :
    Except String (List (String × Series)) :=
  match b.series with
  | [] => .ok owned
  | (stitle, surl) :: _ =>
    match strptime_ymd b.release_date with
    | none => .error ("ValueError: time data " ++ b.release_date
        ++ " does not match format %Y-%m-%d")
    | some d => grouperInsert owned stitle surl b.title d

/-- Embedding of `get_series_by_latest_owned_title`: drop items with no
series membership, then run the grouping loop over the rest in order.
The dict is an insertion-ordered association list. -/
def get_series_by_latest_owned_title (library : List LibraryBook) :
    Except String (List (String × Series)) :=
  (library.filter (fun b => ¬ b.series.isEmpty)).foldlM grouperStep []

/-- The dict part of the loop body: `setdefault` the series entry and
replace its stored `latest` only when `d` is strictly newer. -/
def pureInsert (owned : List (String × Series)) (stitle surl btitle : String) (d : Nat) :
    List (String × Series) :=
  match owned.find? (fun p => p.1 == stitle) with
  | none => owned ++ [(stitle, ⟨stitle, surl, some ⟨btitle, stitle, d, ""⟩⟩)]
  | some p =>
    match p.2.latest with
    | none => owned
    | some cur =>
      if cur.release_date < d then
        owned.map (fun q =>
          if q.1 == stitle then (q.1, ⟨q.2.title, q.2.url, some ⟨btitle, stitle, d, ""⟩⟩) else q)
      else owned

/-- The grouping loop body without its two unreachable-on-good-input
exception paths (malformed date, `latest` absent on a stored entry);
used to state what the loop computes when it does not raise. -/
def pureStep (owned : List (String × Series)) (b : LibraryBook) : List (String × Series) :=
  match b.series with
  | [] => owned
  | (stitle, surl) :: _ =>
    pureInsert owned stitle surl b.title ((strptime_ymd b.release_date).getD 0)

/-- The grouping result on inputs whose dates all parse. -/
def groupPure (library : List LibraryBook) : List (String × Series) :=
  (library.filter (fun b => ¬ b.series.isEmpty)).foldl pureStep []

/-- Every stored dict entry carries a `latest` record (true throughout
the grouping pass, since entries are only created and updated with one). -/
def GoodDict (owned : List (String × Series)) : Prop :=
  ∀ p ∈ owned, p.2.latest.isSome = true

/-- The owned items contributing to series `s`: those with at least one
membership whose first membership names `s`, in input order. -/
def seriesOwned (s : String) : List LibraryBook → List LibraryBook
  | [] => []
  | b :: bs =>
    if (firstSeries b).1 = s ∧ b.series ≠ [] then b :: seriesOwned s bs
    else seriesOwned s bs

/-- The `BookInfo` the grouping loop builds for an owned item. -/
def toInfo (b : LibraryBook) : BookInfo :=
  ⟨b.title, (firstSeries b).1, (strptime_ymd b.release_date).getD 0, ""⟩

/-- The running latest-owned record: starting from `c`, replace the
current record only when a later one's date is strictly newer (the
comparison of the grouping loop, series-locally). -/
def bestOf (c : BookInfo) (infos : List BookInfo) : BookInfo :=
  infos.foldl (fun cur i => if cur.release_date < i.release_date then i else cur) c

/-- Maximum release date of a list of records (0 when empty). -/
def maxReleaseDate (infos : List BookInfo) : Nat :=
  infos.foldl (fun m i => max m i.release_date) 0

theorem pureInsert_new (owned : List (String × Series)) (stitle surl btitle : String) (d : Nat)
    (h : owned.find? (fun p => p.1 == stitle) = none) :
    pureInsert owned stitle surl btitle d
      = owned ++ [(stitle, ⟨stitle, surl, some ⟨btitle, stitle, d, ""⟩⟩)] := by
  unfold pureInsert
  rw [h]

theorem pureInsert_newer (owned : List (String × Series)) (stitle surl btitle : String)
    (d : Nat) (p : String × Series) (cur : BookInfo)
    (h : owned.find? (fun q => q.1 == stitle) = some p) (hl : p.2.latest = some cur)
    (hc : cur.release_date < d) :
    pureInsert owned stitle surl btitle d
      = owned.map (fun q =>
          if q.1 == stitle then (q.1, ⟨q.2.title, q.2.url, some ⟨btitle, stitle, d, ""⟩⟩)
          else q) := by
  simp only [pureInsert, h, hl]
  rw [if_pos hc]

theorem pureInsert_stale (owned : List (String × Series)) (stitle surl btitle : String)
    (d : Nat) (p : String × Series) (cur : BookInfo)
    (h : owned.find? (fun q => q.1 == stitle) = some p) (hl : p.2.latest = some cur)
    (hc : ¬ cur.release_date < d) :
    pureInsert owned stitle surl btitle d = owned := by
  simp only [pureInsert, h, hl]
  rw [if_neg hc]

theorem pureStep_cons (owned : List (String × Series)) (b : LibraryBook)
    (stitle surl : String) (tl : List (String × String))
    (hser : b.series = (stitle, surl) :: tl) :
    pureStep owned b
      = pureInsert owned stitle surl b.title ((strptime_ymd b.release_date).getD 0) := by
  unfold pureStep
  rw [hser]

theorem pureStep_nil (owned : List (String × Series)) (b : LibraryBook)
    (hser : b.series = []) : pureStep owned b = owned := by
  unfold pureStep
  rw [hser]

theorem grouperInsert_eq (owned : List (String × Series)) (stitle surl btitle : String)
    (d : Nat) (hgood : GoodDict owned) :
    grouperInsert owned stitle surl btitle d
      = .ok (pureInsert owned stitle surl btitle d) := by
  cases hf : owned.find? (fun q => q.1 == stitle) with
  | none => simp only [grouperInsert, pureInsert, hf]
  | some p =>
    have hsome := hgood p (List.mem_of_find?_eq_some hf)
    cases hlat : p.2.latest with
    | none => rw [hlat] at hsome; simp at hsome
    | some cur =>
      by_cases hc : cur.release_date < d
      · simp only [grouperInsert, pureInsert, hf, hlat]
        rw [if_pos hc, if_pos hc]
      · simp only [grouperInsert, pureInsert, hf, hlat]
        rw [if_neg hc, if_neg hc]

theorem grouperStep_eq_pureStep (owned : List (String × Series)) (b : LibraryBook)
    (hgood : GoodDict owned)
    (hparse : b.series ≠ [] → (strptime_ymd b.release_date).isSome = true) :
    grouperStep owned b = .ok (pureStep owned b) := by
  cases hser : b.series with
  | nil =>
    rw [pureStep_nil owned b hser]
    unfold grouperStep
    rw [hser]
  | cons hd tl =>
    obtain ⟨stitle, surl⟩ := hd
    have hp := hparse (by rw [hser]; simp)
    rw [pureStep_cons owned b stitle surl tl hser]
    unfold grouperStep
    rw [hser]
    cases hpt : strptime_ymd b.release_date with
    | none => rw [hpt] at hp; simp at hp
    | some d =>
      simp only [hpt, Option.getD_some]
      exact grouperInsert_eq owned stitle surl b.title d hgood

theorem GoodDict_map_upd (acc : List (String × Series)) (stitle : String) (info : BookInfo)
    (h : GoodDict acc) :
    GoodDict (acc.map (fun q =>
      if q.1 == stitle then (q.1, (⟨q.2.title, q.2.url, some info⟩ : Series)) else q)) := by
  intro p hp
  rcases List.mem_map.1 hp with ⟨q, hq, rfl⟩
  by_cases hk : q.1 == stitle
  · simp [hk]
  · simp [hk]
    exact h q hq

theorem GoodDict_append_new (acc : List (String × Series)) (stitle surl : String)
    (info : BookInfo) (h : GoodDict acc) :
    GoodDict (acc ++ [(stitle, (⟨stitle, surl, some info⟩ : Series))]) := by
  intro p hp
  rcases List.mem_append.1 hp with hp | hp
  · exact h p hp
  · simp at hp
    subst hp
    rfl

theorem pureInsert_good (owned : List (String × Series)) (stitle surl btitle : String)
    (d : Nat) (hgood : GoodDict owned) :
    GoodDict (pureInsert owned stitle surl btitle d) := by
  cases hf : owned.find? (fun q => q.1 == stitle) with
  | none =>
    rw [pureInsert_new owned stitle surl btitle d hf]
    exact GoodDict_append_new owned stitle surl _ hgood
  | some p =>
    have hsome := hgood p (List.mem_of_find?_eq_some hf)
    cases hlat : p.2.latest with
    | none => rw [hlat] at hsome; simp at hsome
    | some cur =>
      by_cases hc : cur.release_date < d
      · rw [pureInsert_newer owned stitle surl btitle d p cur hf hlat hc]
        exact GoodDict_map_upd owned stitle _ hgood
      · rw [pureInsert_stale owned stitle surl btitle d p cur hf hlat hc]
        exact hgood

theorem pureStep_good (owned : List (String × Series)) (b : LibraryBook)
    (hgood : GoodDict owned) : GoodDict (pureStep owned b) := by
  cases hser : b.series with
  | nil =>
    rw [pureStep_nil owned b hser]
    exact hgood
  | cons hd tl =>
    obtain ⟨stitle, surl⟩ := hd
    rw [pureStep_cons owned b stitle surl tl hser]
    exact pureInsert_good owned stitle surl b.title _ hgood

theorem foldlM_grouper_eq (l : List LibraryBook) :
    ∀ acc : List (String × Series), GoodDict acc →
    (∀ b ∈ l, b.series ≠ [] → (strptime_ymd b.release_date).isSome = true) →
    l.foldlM grouperStep acc = .ok (l.foldl pureStep acc) := by
  induction l with
  | nil => intro acc _ _; rfl
  | cons b bs ih =>
    intro acc hgood hparse
    rw [List.foldlM_cons,
      grouperStep_eq_pureStep acc b hgood (hparse b (List.mem_cons_self b bs))]
    show Except.bind _ _ = _
    rw [Except.bind]
    exact ih (pureStep acc b) (pureStep_good acc b hgood)
      (fun m hm => hparse m (List.mem_cons_of_mem _ hm))

/-- The grouping pass succeeds (never raises) exactly on inputs whose
release-date strings all parse; its value is the pure fold. -/
theorem grouper_ok (library : List LibraryBook)
    (hparse : ∀ b ∈ library, b.series ≠ [] → (strptime_ymd b.release_date).isSome = true) :
    get_series_by_latest_owned_title library = .ok (groupPure library) := by
  unfold get_series_by_latest_owned_title groupPure
  apply foldlM_grouper_eq
  · intro p hp
    simp at hp
  · intro b hb
    exact hparse b (List.mem_filter.1 hb).1

theorem pureInsert_dead (owned : List (String × Series)) (stitle surl btitle : String)
    (d : Nat) (p : String × Series)
    (h : owned.find? (fun q => q.1 == stitle) = some p) (hl : p.2.latest = none) :
    pureInsert owned stitle surl btitle d = owned := by
  simp only [pureInsert, h, hl]

theorem find?_map_upd (acc : List (String × Series)) (stitle s btitle sname : String)
    (d : Nat) :
    (acc.map (fun q =>
        if q.1 == stitle then (q.1, (⟨q.2.title, q.2.url, some ⟨btitle, sname, d, ""⟩⟩ : Series))
        else q)).find? (fun p => p.1 == s)
      = Option.map (fun q =>
          if q.1 == stitle then (q.1, (⟨q.2.title, q.2.url, some ⟨btitle, sname, d, ""⟩⟩ : Series))
          else q) (acc.find? (fun p => p.1 == s)) := by
  rw [List.find?_map]
  have hpred : ((fun p : String × Series => p.1 == s) ∘ (fun q =>
      if q.1 == stitle then (q.1, (⟨q.2.title, q.2.url, some ⟨btitle, sname, d, ""⟩⟩ : Series))
      else q)) = (fun q : String × Series => q.1 == s) := by
    funext q
    simp only [Function.comp]
    by_cases h : q.1 == stitle
    · rw [if_pos h]
    · rw [if_neg h]
  rw [hpred]

theorem pureInsert_find?_other (owned : List (String × Series)) (stitle surl btitle : String)
    (d : Nat) (s : String) (hne : (stitle == s) = false) :
    (pureInsert owned stitle surl btitle d).find? (fun p => p.1 == s)
      = owned.find? (fun p => p.1 == s) := by
  cases hf : owned.find? (fun q => q.1 == stitle) with
  | none =>
    rw [pureInsert_new owned stitle surl btitle d hf, List.find?_append]
    have : List.find? (fun p : String × Series => p.1 == s)
        [(stitle, ⟨stitle, surl, some ⟨btitle, stitle, d, ""⟩⟩)] = none := by
      simp [List.find?_cons, hne]
    rw [this]
    cases owned.find? (fun p => p.1 == s) <;> rfl
  | some p =>
    cases hlat : p.2.latest with
    | none => rw [pureInsert_dead owned stitle surl btitle d p hf hlat]
    | some cur =>
      by_cases hc : cur.release_date < d
      · rw [pureInsert_newer owned stitle surl btitle d p cur hf hlat hc, find?_map_upd]
        cases hfs : owned.find? (fun p => p.1 == s) with
        | none => rfl
        | some q =>
          have hq := List.find?_some hfs
          have hqs : q.1 = s := by simpa using hq
          have hqne : (q.1 == stitle) = false := by
            rw [hqs]
            cases hst : s == stitle
            · rfl
            · exfalso
              have : s = stitle := by simpa using hst
              rw [this] at hne
              simp at hne
          rw [Option.map_some']
          rw [if_neg]
          intro hcon
          rw [hcon] at hqne
          simp at hqne
      · rw [pureInsert_stale owned stitle surl btitle d p cur hf hlat hc]

theorem seriesOwned_cons (s : String) (b : LibraryBook) (bs : List LibraryBook) :
    seriesOwned s (b :: bs)
      = if (firstSeries b).1 = s ∧ b.series ≠ [] then b :: seriesOwned s bs
        else seriesOwned s bs := rfl

theorem seriesOwned_cons_skip (s : String) (b : LibraryBook) (bs : List LibraryBook)
    (h : ¬ ((firstSeries b).1 = s ∧ b.series ≠ [])) :
    seriesOwned s (b :: bs) = seriesOwned s bs := by
  rw [seriesOwned_cons, if_neg h]

theorem seriesOwned_cons_take (s : String) (b : LibraryBook) (bs : List LibraryBook)
    (h : (firstSeries b).1 = s ∧ b.series ≠ []) :
    seriesOwned s (b :: bs) = b :: seriesOwned s bs := by
  rw [seriesOwned_cons, if_pos h]

theorem maxReleaseDate_cons (i : BookInfo) (is : List BookInfo) :
    maxReleaseDate (i :: is)
      = is.foldl (fun m j => max m j.release_date) i.release_date := by
  show is.foldl _ (max 0 i.release_date) = _
  congr 1
  exact Nat.zero_max _

theorem bestOf_date (is : List BookInfo) : ∀ c : BookInfo,
    (bestOf c is).release_date
      = is.foldl (fun m j => max m j.release_date) c.release_date := by
  induction is with
  | nil => intro c; rfl
  | cons i is ih =>
    intro c
    show (bestOf (if c.release_date < i.release_date then i else c) is).release_date = _
    rw [ih, List.foldl_cons]
    congr 1
    by_cases hc : c.release_date < i.release_date
    · rw [if_pos hc]
      exact (Nat.max_eq_right (Nat.le_of_lt hc)).symm
    · rw [if_neg hc]
      exact (Nat.max_eq_left (Nat.le_of_not_lt hc)).symm

theorem le_foldl_maxDate (is : List BookInfo) :
    ∀ b : Nat, b ≤ is.foldl (fun m j => max m j.release_date) b := by
  induction is with
  | nil => intro b; exact Nat.le_refl b
  | cons i is ih =>
    intro b
    exact Nat.le_trans (Nat.le_max_left _ _) (ih _)

theorem bestOf_cons (c i : BookInfo) (is : List BookInfo) :
    bestOf c (i :: is)
      = bestOf (if c.release_date < i.release_date then i else c) is := rfl

theorem foldl_lookup_some (l : List LibraryBook) :
    ∀ (acc : List (String × Series)) (s k : String) (st : Series) (cur : BookInfo),
      GoodDict acc →
      acc.find? (fun p => p.1 == s) = some (k, st) →
      st.latest = some cur →
      (l.foldl pureStep acc).find? (fun p => p.1 == s)
        = some (k, ⟨st.title, st.url, some (bestOf cur ((seriesOwned s l).map toInfo))⟩) := by
  induction l with
  | nil =>
    intro acc s k st cur _ hf hl
    rw [List.foldl_nil, hf]
    show some (k, st) = some (k, ⟨st.title, st.url, some cur⟩)
    rw [← hl]
  | cons b bs ih =>
    intro acc s k st cur hgood hf hl
    rw [List.foldl_cons]
    cases hser : b.series with
    | nil =>
      rw [pureStep_nil acc b hser,
        seriesOwned_cons_skip s b bs (by rw [hser]; simp)]
      exact ih acc s k st cur hgood hf hl
    | cons hd tl =>
      obtain ⟨stitle, surl⟩ := hd
      have hfs : firstSeries b = (stitle, surl) := by
        unfold firstSeries
        rw [hser]
        rfl
      have hne : b.series ≠ [] := by rw [hser]; simp
      rw [pureStep_cons acc b stitle surl tl hser]
      by_cases hks : stitle = s
      · subst hks
        have hkeq := List.find?_some hf
        have hkbeq : (k == stitle) = true := by simpa using hkeq
        rw [seriesOwned_cons_take stitle b bs ⟨by rw [hfs], hne⟩]
        have htd : (toInfo b).release_date = (strptime_ymd b.release_date).getD 0 := rfl
        have hti : toInfo b
            = ⟨b.title, stitle, (strptime_ymd b.release_date).getD 0, ""⟩ := by
          unfold toInfo
          rw [hfs]
        by_cases hc : cur.release_date < (strptime_ymd b.release_date).getD 0
        · rw [pureInsert_newer acc stitle surl b.title _ (k, st) cur hf hl hc]
          have hfind : (acc.map (fun q =>
              if q.1 == stitle then (q.1, (⟨q.2.title, q.2.url,
                some ⟨b.title, stitle, (strptime_ymd b.release_date).getD 0, ""⟩⟩ : Series))
              else q)).find? (fun p => p.1 == stitle)
                = some (k, ⟨st.title, st.url,
                    some ⟨b.title, stitle, (strptime_ymd b.release_date).getD 0, ""⟩⟩) := by
            rw [find?_map_upd, hf, Option.map_some']
            rw [if_pos hkbeq]
          have happ := ih _ stitle k
            (⟨st.title, st.url,
              some ⟨b.title, stitle, (strptime_ymd b.release_date).getD 0, ""⟩⟩ : Series)
            (⟨b.title, stitle, (strptime_ymd b.release_date).getD 0, ""⟩ : BookInfo)
            (GoodDict_map_upd acc stitle _ hgood) hfind rfl
          rw [happ, List.map_cons, bestOf_cons, htd, if_pos hc, hti]
        · rw [pureInsert_stale acc stitle surl b.title _ (k, st) cur hf hl hc]
          rw [ih acc stitle k st cur hgood hf hl,
            List.map_cons, bestOf_cons, htd, if_neg hc]
      · have hkey : (stitle == s) = false := by
          cases hst : stitle == s
          · rfl
          · exact absurd (by simpa using hst) hks
        rw [seriesOwned_cons_skip s b bs (by rw [hfs]; rintro ⟨h1, _⟩; exact hks h1)]
        exact ih _ s k st cur (pureInsert_good acc stitle surl b.title _ hgood)
          (by rw [pureInsert_find?_other acc stitle surl b.title _ s hkey]; exact hf) hl

theorem foldl_lookup_none (l : List LibraryBook) :
    ∀ (acc : List (String × Series)) (s : String),
      GoodDict acc →
      acc.find? (fun p => p.1 == s) = none →
      (l.foldl pureStep acc).find? (fun p => p.1 == s)
        = match seriesOwned s l with
          | [] => none
          | b :: bs => some (s, ⟨s, (firstSeries b).2,
              some (bestOf (toInfo b) (bs.map toInfo))⟩) := by
  induction l with
  | nil =>
    intro acc s _ hf
    rw [List.foldl_nil, hf]
    rfl
  | cons b bs ih =>
    intro acc s hgood hf
    rw [List.foldl_cons]
    cases hser : b.series with
    | nil =>
      rw [pureStep_nil acc b hser, seriesOwned_cons_skip s b bs (by rw [hser]; simp)]
      exact ih acc s hgood hf
    | cons hd tl =>
      obtain ⟨stitle, surl⟩ := hd
      have hfs : firstSeries b = (stitle, surl) := by
        unfold firstSeries
        rw [hser]
        rfl
      have hne : b.series ≠ [] := by rw [hser]; simp
      rw [pureStep_cons acc b stitle surl tl hser]
      by_cases hks : stitle = s
      · subst hks
        rw [seriesOwned_cons_take stitle b bs ⟨by rw [hfs], hne⟩]
        rw [pureInsert_new acc stitle surl b.title _ hf]
        have hfind : (acc ++ [(stitle, (⟨stitle, surl,
            some ⟨b.title, stitle, (strptime_ymd b.release_date).getD 0, ""⟩⟩ : Series))]).find?
              (fun p => p.1 == stitle)
            = some (stitle, ⟨stitle, surl,
                some ⟨b.title, stitle, (strptime_ymd b.release_date).getD 0, ""⟩⟩) := by
          rw [List.find?_append, hf]
          simp
        have happ := foldl_lookup_some bs _ stitle stitle
          (⟨stitle, surl,
            some ⟨b.title, stitle, (strptime_ymd b.release_date).getD 0, ""⟩⟩ : Series)
          (⟨b.title, stitle, (strptime_ymd b.release_date).getD 0, ""⟩ : BookInfo)
          (GoodDict_append_new acc stitle surl _ hgood) hfind rfl
        rw [happ]
        show _ = some (stitle, ⟨stitle, (firstSeries b).2,
          some (bestOf (toInfo b) ((seriesOwned stitle bs).map toInfo))⟩)
        have hti : toInfo b
            = ⟨b.title, stitle, (strptime_ymd b.release_date).getD 0, ""⟩ := by
          unfold toInfo
          rw [hfs]
        rw [hfs, hti]
      · have hkey : (stitle == s) = false := by
          cases hst : stitle == s
          · rfl
          · exact absurd (by simpa using hst) hks
        rw [seriesOwned_cons_skip s b bs (by rw [hfs]; rintro ⟨h1, _⟩; exact hks h1)]
        exact ih _ s (pureInsert_good acc stitle surl b.title _ hgood)
          (by rw [pureInsert_find?_other acc stitle surl b.title _ s hkey]; exact hf)

theorem keys_map_upd (acc : List (String × Series)) (stitle btitle sname : String) (d : Nat) :
    ((acc.map (fun q =>
        if q.1 == stitle then (q.1, (⟨q.2.title, q.2.url, some ⟨btitle, sname, d, ""⟩⟩ : Series))
        else q)).map Prod.fst)
      = acc.map Prod.fst := by
  rw [List.map_map]
  apply List.map_congr_left
  intro q _
  by_cases h : q.1 == stitle
  · simp [Function.comp, h]
  · simp [Function.comp, h]

theorem pureInsert_keys_nodup (owned : List (String × Series)) (stitle surl btitle : String)
    (d : Nat) (h : (owned.map Prod.fst).Nodup) :
    ((pureInsert owned stitle surl btitle d).map Prod.fst).Nodup := by
  cases hf : owned.find? (fun q => q.1 == stitle) with
  | none =>
    rw [pureInsert_new owned stitle surl btitle d hf, List.map_append]
    have hnotin : stitle ∉ owned.map Prod.fst := by
      intro hmem
      rcases List.mem_map.1 hmem with ⟨p, hp, hps⟩
      apply List.find?_eq_none.1 hf p hp
      simp [hps]
    rw [List.nodup_append]
    refine ⟨h, by simp, ?_⟩
    intro a ha hb
    simp at hb
    rw [hb] at ha
    exact hnotin ha
  | some p =>
    cases hlat : p.2.latest with
    | none =>
      rw [pureInsert_dead owned stitle surl btitle d p hf hlat]
      exact h
    | some cur =>
      by_cases hc : cur.release_date < d
      · rw [pureInsert_newer owned stitle surl btitle d p cur hf hlat hc, keys_map_upd]
        exact h
      · rw [pureInsert_stale owned stitle surl btitle d p cur hf hlat hc]
        exact h

theorem foldl_keys_nodup (l : List LibraryBook) :
    ∀ acc : List (String × Series), (acc.map Prod.fst).Nodup →
      ((l.foldl pureStep acc).map Prod.fst).Nodup := by
  induction l with
  | nil => intro acc h; exact h
  | cons b bs ih =>
    intro acc h
    rw [List.foldl_cons]
    apply ih
    cases hser : b.series with
    | nil =>
      rw [pureStep_nil acc b hser]
      exact h
    | cons hd tl =>
      obtain ⟨stitle, surl⟩ := hd
      rw [pureStep_cons acc b stitle surl tl hser]
      exact pureInsert_keys_nodup acc stitle surl b.title _ h

theorem find?_eq_of_mem_nodup :
    ∀ (m : List (String × Series)), (m.map Prod.fst).Nodup →
      ∀ p ∈ m, m.find? (fun q => q.1 == p.1) = some p := by
  intro m
  induction m with
  | nil => intro _ p hp; simp at hp
  | cons q m ih =>
    intro hnd p hp
    rcases List.mem_cons.1 hp with rfl | hp2
    · exact List.find?_cons_of_pos m (by simp)
    · have hqp : (q.1 == p.1) = false := by
        have hnin : q.1 ∉ m.map Prod.fst := by
          rw [List.map_cons, List.nodup_cons] at hnd
          exact hnd.1
        have hpk : p.1 ∈ m.map Prod.fst := List.mem_map_of_mem Prod.fst hp2
        cases hqb : q.1 == p.1
        · rfl
        · exfalso
          have : q.1 = p.1 := by simpa using hqb
          rw [this] at hnin
          exact hnin hpk
      rw [List.find?_cons_of_neg m (by simp [hqp])]
      apply ih ?_ p hp2
      rw [List.map_cons, List.nodup_cons] at hnd
      exact hnd.2

theorem bestOf_first (is : List BookInfo) : ∀ c : BookInfo,
    (c :: is).find?
        (fun i => is.foldl (fun m j => max m j.release_date) c.release_date ≤ i.release_date)
      = some (bestOf c is) := by
  induction is with
  | nil =>
    intro c
    exact List.find?_cons_of_pos [] (by simp)
  | cons i is ih =>
    intro c
    rw [List.foldl_cons]
    by_cases hlt : c.release_date < i.release_date
    · rw [Nat.max_eq_right (Nat.le_of_lt hlt), bestOf_cons, if_pos hlt]
      rw [List.find?_cons_of_neg _ ?_]
      · exact ih i
      · have := le_foldl_maxDate is i.release_date
        simp only [decide_eq_true_eq]
        omega
    · have hile : i.release_date ≤ c.release_date := Nat.le_of_not_lt hlt
      rw [Nat.max_eq_left hile, bestOf_cons, if_neg hlt]
      by_cases hpc : is.foldl (fun m j => max m j.release_date) c.release_date
          ≤ c.release_date
      · rw [List.find?_cons_of_pos _ (by simpa using hpc)]
        have hih := ih c
        rw [List.find?_cons_of_pos _ (by simpa using hpc)] at hih
        exact hih
      · rw [List.find?_cons_of_neg _ (by simpa using hpc)]
        rw [List.find?_cons_of_neg _ ?_]
        · have hih := ih c
          rw [List.find?_cons_of_neg _ (by simpa using hpc)] at hih
          exact hih
        · simp only [decide_eq_true_eq]
          omega

theorem seriesOwned_filter (s : String) (library : List LibraryBook) :
    seriesOwned s (library.filter (fun b => ¬ b.series.isEmpty)) = seriesOwned s library := by
  induction library with
  | nil => rfl
  | cons b bs ih =>
    by_cases hser : b.series = []
    · have hpe : b.series.isEmpty = true := by rw [hser]; rfl
      rw [List.filter_cons, if_neg (by simp [hpe]), ih,
        seriesOwned_cons_skip s b bs (by rintro ⟨_, h2⟩; exact h2 hser)]
    · have hpe : b.series.isEmpty = false := by
        cases hpe2 : b.series.isEmpty
        · rfl
        · exact absurd (by simpa using hpe2) hser
      rw [List.filter_cons, if_pos (by simp [hpe])]
      by_cases hks : (firstSeries b).1 = s
      · rw [seriesOwned_cons_take s b _ ⟨hks, hser⟩, ih,
          seriesOwned_cons_take s b bs ⟨hks, hser⟩]
      · rw [seriesOwned_cons_skip s b _ (by rintro ⟨h1, _⟩; exact hks h1), ih,
          seriesOwned_cons_skip s b bs (by rintro ⟨h1, _⟩; exact hks h1)]

theorem groupPure_lookup (library : List LibraryBook) (s : String) :
    (groupPure library).find? (fun p => p.1 == s)
      = match seriesOwned s library with
        | [] => none
        | b :: bs => some (s, ⟨s, (firstSeries b).2,
            some (bestOf (toInfo b) (bs.map toInfo))⟩) := by
  show ((library.filter (fun b => ¬ b.series.isEmpty)).foldl pureStep []).find? _ = _
  rw [foldl_lookup_none _ [] s (by intro p hp; simp at hp) rfl, seriesOwned_filter]

/-- C3: the grouper discards items with no series membership, uses only
the first membership of each remaining item, raises only on a
malformed date string, and produces exactly one entry per distinct
first-membership series title; each entry's `latest` record has the
maximum release date among that series' owned items and is the record
of the first such item attaining that maximum (a stored record is
replaced only by a strictly newer one). -/
theorem c3_grouper (library : List LibraryBook)
    (hparse : ∀ b ∈ library, b.series ≠ [] → (strptime_ymd b.release_date).isSome = true) :
    get_series_by_latest_owned_title library = .ok (groupPure library) ∧
    ((groupPure library).map Prod.fst).Nodup ∧
    (∀ s : String, (∃ p ∈ groupPure library, p.1 = s) ↔ seriesOwned s library ≠ []) ∧
    (∀ p ∈ groupPure library, ∃ latest : BookInfo,
        p.2.latest = some latest ∧
        latest.release_date = maxReleaseDate ((seriesOwned p.1 library).map toInfo) ∧
        ((seriesOwned p.1 library).map toInfo).find?
            (fun i => maxReleaseDate ((seriesOwned p.1 library).map toInfo) ≤ i.release_date)
          = some latest) := by
  have hnd : ((groupPure library).map Prod.fst).Nodup := by
    show (((library.filter (fun b => ¬ b.series.isEmpty)).foldl pureStep []).map Prod.fst).Nodup
    exact foldl_keys_nodup _ [] (by simp)
  refine ⟨grouper_ok library hparse, hnd, ?_, ?_⟩
  · intro s
    constructor
    · rintro ⟨p, hp, hps⟩
      intro hcon
      have hlook := groupPure_lookup library s
      rw [hcon] at hlook
      exact absurd (by simp [hps]) (List.find?_eq_none.1 hlook p hp)
    · intro hne
      have hlook := groupPure_lookup library s
      cases hso : seriesOwned s library with
      | nil => exact absurd hso hne
      | cons b bs =>
        rw [hso] at hlook
        exact ⟨_, List.mem_of_find?_eq_some hlook, rfl⟩
  · intro p hp
    have hfind := find?_eq_of_mem_nodup (groupPure library) hnd p hp
    have hlook := groupPure_lookup library p.1
    rw [hfind] at hlook
    cases hso : seriesOwned p.1 library with
    | nil =>
      rw [hso] at hlook
      exact absurd hlook (by simp)
    | cons b bs =>
      rw [hso] at hlook
      have hpeq : p = (p.1, (⟨p.1, (firstSeries b).2,
          some (bestOf (toInfo b) (bs.map toInfo))⟩ : Series)) := by
        exact Option.some.inj hlook
      refine ⟨bestOf (toInfo b) (bs.map toInfo), ?_, ?_, ?_⟩
      · rw [congrArg Prod.snd hpeq]
      · rw [List.map_cons, maxReleaseDate_cons, bestOf_date]
      · rw [List.map_cons, maxReleaseDate_cons]
        exact bestOf_first (bs.map toInfo) (toInfo b)

/-- A concrete owned library: two items of series Foo, one item with no
membership, one item of series Bar. -/
def c3library : List LibraryBook :=
  [⟨"Foo 1", [("Foo", "/pd/Foo-1")], "2023-01-01"⟩,
   ⟨"Standalone", [], "2023-03-01"⟩,
   ⟨"Foo 2", [("Foo", "/pd/Foo-2")], "2023-06-01"⟩,
   ⟨"Bar 1", [("Bar", "/pd/Bar-1")], "2022-05-10"⟩]

/-- Witness for C3 at the concrete library. -/
theorem c3_grouper_witness :
    get_series_by_latest_owned_title c3library = .ok (groupPure c3library) ∧
    ((groupPure c3library).map Prod.fst).Nodup ∧
    (∀ s : String, (∃ p ∈ groupPure c3library, p.1 = s) ↔ seriesOwned s c3library ≠ []) ∧
    (∀ p ∈ groupPure c3library, ∃ latest : BookInfo,
        p.2.latest = some latest ∧
        latest.release_date = maxReleaseDate ((seriesOwned p.1 c3library).map toInfo) ∧
        ((seriesOwned p.1 c3library).map toInfo).find?
            (fun i => maxReleaseDate ((seriesOwned p.1 c3library).map toInfo) ≤ i.release_date)
          = some latest) :=
  c3_grouper c3library (by decide)

/-- Embedding of the `Rating` dataclass of `src/script.py` lines 52-64:
three fields, no defaults.  Average ratings are embedded as rationals
(cast to ℝ where they enter a score). -/
structure Rating where
  title : String
  average_rating : ℚ
  reviewers : Nat
deriving DecidableEq, Repr

/-- Python dict assignment `d[k] = v`: overwrite the binding in place
when the key exists, append it otherwise (dicts preserve insertion
order). -/
def dictInsert {α : Type} (d : List (String × α)) (k : String) (v : α) : List (String × α) :=
  if d.any (fun p => p.1 == k) then d.map (fun p => if p.1 == k then (k, v) else p)
  else d ++ [(k, v)]

/-- The dict comprehension of `rank_reviews`
(`src/repl.py` lines 63-74, `src/script.py` lines 287-298):
`{rating.title: math.log(1 + rating.reviewers) for rating in wishlist}`.
The binding stores `ln(1 + reviewers)`; since the count determines that
value, the embedding stores the count and applies the logarithm at
every read (`logPop`), which keeps the dict executable and the
degenerate guard below decidable. -/
def review_dict (w : List Rating) : List (String × Nat) :=
  w.foldl (fun d r => dictInsert d r.title r.reviewers) []

/-- The log-popularity `math.log(1 + reviewers)` of a review count. -/
noncomputable def logPop (c : Nat) : ℝ := Real.log (1 + c)

/-- Reading `log_reviews[title]`: the stored log-popularity (0 for an
absent key, which `rank_reviews` never reads). -/
noncomputable def log_lookup (w : List Rating) (t : String) : ℝ :=
  match (review_dict w).find? (fun p => p.1 == t) with
  | some p => logPop p.2
  | none => 0

/-- The `upper = max(log_reviews.values())` of the ranker; all values
are nonnegative, so the fold with base 0 is that maximum whenever the
dict is nonempty (and `max()` raising on an empty dict is guarded in
`rank_reviews`). -/
noncomputable def upper (w : List Rating) : ℝ :=
  ((review_dict w).map (fun p => logPop p.2)).foldr max 0

/-- The normalized popularity `norm_log_review[t] = 5 * log_reviews[t] / upper`. -/
noncomputable def normPopularity (w : List Rating) (t : String) : ℝ :=
  5 * log_lookup w t / upper w

/-- The sort key of one wishlist record:
`rating.average_rating * norm_log_review[rating.title]`. -/
noncomputable def score (w : List Rating) (r : Rating) : ℝ :=
  (r.average_rating : ℝ) * normPopularity w r.title

noncomputable instance scoreDecidable (w : List Rating) :
    DecidableRel (fun a b : Rating => score w b ≤ score w a) :=
  fun _ _ => Classical.dec _

/-- Embedding of `rank_reviews`: `max()` of the empty dict raises
`ValueError` on an empty wishlist; when every stored count is 0 the
normalisation divides the float 0.0 by 0.0, which raises
`ZeroDivisionError` in Python (upper equals 0 exactly when all stored
counts are 0); otherwise the wishlist is stable-sorted descending by
score (`list.sort(reverse=True)` is stable, hence insertion sort under
the reflexive descending comparison realises it). -/
noncomputable def rank_reviews (w : List Rating) : Except String (List Rating) :=
  if (review_dict w).isEmpty then
    .error "ValueError: max() arg is an empty sequence"
  else if (review_dict w).all (fun p => p.2 == 0) then
    .error "ZeroDivisionError: float division by zero"
  else
    .ok (List.insertionSort (fun a b => score w b ≤ score w a) w)

/-- C9: on an empty wishlist the ranker raises the `max()` error before
any division; it never returns a ranking (silent or otherwise) for an
empty wishlist. -/
theorem c9_empty_wishlist_error :
    rank_reviews [] = .error "ValueError: max() arg is an empty sequence" ∧
    (rank_reviews []).isOk = false :=
  ⟨rfl, rfl⟩

theorem dictInsert_fresh {α : Type} (d : List (String × α)) (k : String) (v : α)
    (h : d.any (fun p => p.1 == k) = false) :
    dictInsert d k v = d ++ [(k, v)] := by
  unfold dictInsert
  rw [h]
  simp

theorem review_dict_eq (w : List Rating) (hnd : (w.map (fun r => r.title)).Nodup) :
    review_dict w = w.map (fun r => (r.title, r.reviewers)) := by
  suffices h : ∀ (ws : List Rating) (acc : List (String × Nat)),
      ((acc.map Prod.fst) ++ ws.map (fun r => r.title)).Nodup →
      ws.foldl (fun d r => dictInsert d r.title r.reviewers) acc
        = acc ++ ws.map (fun r => (r.title, r.reviewers)) by
    simpa [review_dict] using h w [] (by simpa using hnd)
  intro ws
  induction ws with
  | nil =>
    intro acc _
    simp
  | cons r rs ih =>
    intro acc hnd2
    rw [List.foldl_cons]
    rw [List.map_cons] at hnd2
    have hfresh : acc.any (fun p => p.1 == r.title) = false := by
      have hdisj := (List.nodup_append.1 hnd2).2.2
      cases hany : acc.any (fun p => p.1 == r.title)
      · rfl
      · exfalso
        rcases List.any_eq_true.1 hany with ⟨p, hp, hpt⟩
        have hpeq : p.1 = r.title := by simpa using hpt
        exact hdisj (hpeq ▸ List.mem_map_of_mem Prod.fst hp) (List.mem_cons_self _ _)
    rw [dictInsert_fresh acc r.title r.reviewers hfresh]
    rw [ih (acc ++ [(r.title, r.reviewers)]) ?_]
    · simp
    · rw [List.map_append]
      simpa [List.append_assoc] using hnd2

theorem find?_key_map {β : Type} (f : Rating → β) :
    ∀ (w : List Rating), (w.map (fun r => r.title)).Nodup →
      ∀ r ∈ w, (w.map (fun q => (q.title, f q))).find? (fun p => p.1 == r.title)
        = some (r.title, f r) := by
  intro w
  induction w with
  | nil =>
    intro _ r hr
    simp at hr
  | cons q ws ih =>
    intro hnd r hr
    rw [List.map_cons] at hnd ⊢
    rw [List.nodup_cons] at hnd
    rcases List.mem_cons.1 hr with rfl | hr2
    · exact List.find?_cons_of_pos _ (by simp)
    · have hqr : (q.title == r.title) = false := by
        have hmem : r.title ∈ ws.map (fun r => r.title) :=
          List.mem_map_of_mem _ hr2
        cases hqb : q.title == r.title
        · rfl
        · exfalso
          have heq : q.title = r.title := by simpa using hqb
          rw [heq] at hnd
          exact hnd.1 hmem
      rw [List.find?_cons_of_neg _ (by simp [hqr])]
      exact ih hnd.2 r hr2

theorem log_lookup_eq (w : List Rating) (hnd : (w.map (fun r => r.title)).Nodup)
    (r : Rating) (hr : r ∈ w) : log_lookup w r.title = logPop r.reviewers := by
  unfold log_lookup
  rw [review_dict_eq w hnd, find?_key_map (fun q => q.reviewers) w hnd r hr]

theorem upper_eq (w : List Rating) (hnd : (w.map (fun r => r.title)).Nodup) :
    upper w = (w.map (fun r => logPop r.reviewers)).foldr max 0 := by
  unfold upper
  rw [review_dict_eq w hnd, List.map_map]
  rfl

theorem logPop_nonneg (c : Nat) : 0 ≤ logPop c :=
  Real.log_nonneg (by simp)

theorem logPop_mono {c c2 : Nat} (h : c ≤ c2) : logPop c ≤ logPop c2 :=
  Real.log_le_log (by positivity) (by exact add_le_add_left (Nat.cast_le.2 h) 1)

theorem logPop_pos {c : Nat} (h : 0 < c) : 0 < logPop c := by
  apply Real.log_pos
  have : (1 : ℝ) ≤ (c : ℝ) := by exact_mod_cast h
  linarith

theorem foldr_max_nonneg (l : List ℝ) : 0 ≤ l.foldr max 0 := by
  induction l with
  | nil => exact le_refl 0
  | cons x l ih => exact le_trans ih (le_max_right x _)

theorem mem_le_foldr_max (l : List ℝ) : ∀ x ∈ l, x ≤ l.foldr max 0 := by
  induction l with
  | nil => intro x hx; simp at hx
  | cons y l ih =>
    intro x hx
    rcases List.mem_cons.1 hx with rfl | hx2
    · exact le_max_left x _
    · exact le_trans (ih x hx2) (le_max_right y _)

theorem foldr_max_le (l : List ℝ) (x : ℝ) (h0 : 0 ≤ x) (h : ∀ y ∈ l, y ≤ x) :
    l.foldr max 0 ≤ x := by
  induction l with
  | nil => exact h0
  | cons y l ih =>
    exact max_le (h y (List.mem_cons_self _ _))
      (ih fun z hz => h z (List.mem_cons_of_mem _ hz))

theorem foldr_max_eq_of_mem_max (l : List ℝ) (x : ℝ) (hx : x ∈ l)
    (hmax : ∀ y ∈ l, y ≤ x) (h0 : 0 ≤ x) : l.foldr max 0 = x :=
  le_antisymm (foldr_max_le l x h0 hmax) (mem_le_foldr_max l x hx)

theorem foldr_max_set (l : List ℝ) : ∀ (i : Nat) (h : i < l.length) (x : ℝ),
    l.get ⟨i, h⟩ ≤ x →
    (l.set i x).foldr max 0 = max (l.foldr max 0) x := by
  induction l with
  | nil => intro i h; simp at h
  | cons y l ih =>
    intro i h x hle
    cases i with
    | zero =>
      show max x (l.foldr max 0) = max (max y (l.foldr max 0)) x
      have hyx : y ≤ x := hle
      rw [max_comm (max y (l.foldr max 0)) x, ← max_assoc, max_eq_left hyx]
    | succ i =>
      show max y ((l.set i x).foldr max 0) = max (max y (l.foldr max 0)) x
      rw [ih i (by simpa using h) x hle, max_assoc]

theorem set_get_self {α : Type} : ∀ (l : List α) (i : Nat) (h : i < l.length),
    l.set i (l.get ⟨i, h⟩) = l := by
  intro l
  induction l with
  | nil => intro i h; simp at h
  | cons x l ih =>
    intro i h
    cases i with
    | zero => rfl
    | succ i =>
      show x :: l.set i (l.get ⟨i, by simpa using h⟩) = x :: l
      rw [ih]

theorem div_max_mono (L Lp U : ℝ) (h0 : 0 ≤ L) (hLU : L ≤ U) (hU : 0 < U)
    (hLL : L ≤ Lp) : 5 * L / U ≤ 5 * Lp / max U Lp := by
  rcases le_total Lp U with h | h
  · rw [max_eq_left h]
    exact (div_le_div_iff_of_pos_right hU).mpr (by nlinarith)
  · rw [max_eq_right h]
    have hLp : 0 < Lp := lt_of_lt_of_le hU h
    have h2 : 5 * Lp / Lp = 5 := by field_simp
    rw [h2, div_le_iff₀ hU]
    nlinarith

/-- The reviewCount bump of one record, all other fields fixed. -/
def bump (r : Rating) (d : Nat) : Rating := ⟨r.title, r.average_rating, r.reviewers + d⟩

/-- C5 counterexample: on the singleton wishlist whose only (hence
top-reviewed) record has reviewCount 0, the ranker raises
`ZeroDivisionError` (`5 * 0.0 / 0.0`), and the record's normalized
popularity is not 5; moreover with duplicate titles the dict collapses
records, so even a wishlist whose top record has 99 reviews raises the
same error — the claim fails as stated. -/
theorem c5_counterexample :
    rank_reviews [⟨"A", 4, 0⟩] = .error "ZeroDivisionError: float division by zero" ∧
    normPopularity [⟨"A", 4, 0⟩] "A" ≠ 5 ∧
    rank_reviews [⟨"T", 5, 99⟩, ⟨"T", 5, 0⟩]
      = .error "ZeroDivisionError: float division by zero" := by
  refine ⟨rfl, ?_, rfl⟩
  have hz : normPopularity [⟨"A", 4, 0⟩] "A" = 0 := by
    unfold normPopularity
    have : log_lookup [⟨"A", 4, 0⟩] "A" = logPop 0 := rfl
    rw [this]
    have : logPop 0 = 0 := by
      unfold logPop
      norm_num
    rw [this]
    simp
  rw [hz]
  norm_num

/-- C5 (amended): for every wishlist with pairwise-distinct titles in
which some record has a positive review count, (a) increasing one
record's reviewCount while holding all other records fixed never
decreases that record's normalized popularity, and (b) a record with
the globally maximal review count receives normalized popularity
exactly 5.  (The counterexample shows both hypotheses are needed: an
all-zero wishlist divides 0.0 by 0.0, and duplicate titles collapse
dict entries.) -/
theorem c5_norm_popularity (w : List Rating)
    (hnd : (w.map (fun r => r.title)).Nodup)
    (hpos : ∃ r ∈ w, 0 < r.reviewers) :
    (∀ (i : Nat) (h : i < w.length) (d : Nat),
        normPopularity w (w.get ⟨i, h⟩).title
          ≤ normPopularity (w.set i (bump (w.get ⟨i, h⟩) d)) (w.get ⟨i, h⟩).title) ∧
    (∀ r ∈ w, (∀ q ∈ w, q.reviewers ≤ r.reviewers) → normPopularity w r.title = 5) := by
  have hU : 0 < upper w := by
    rcases hpos with ⟨r, hr, hrc⟩
    rw [upper_eq w hnd]
    exact lt_of_lt_of_le (logPop_pos hrc)
      (mem_le_foldr_max _ _ (List.mem_map_of_mem _ hr))
  constructor
  · intro i h d
    have hr : w.get ⟨i, h⟩ ∈ w := List.get_mem w i h
    have hmaplen : i < (w.map (fun q => q.title)).length := by simpa using h
    have hgetmap : (w.map (fun q => q.title)).get ⟨i, hmaplen⟩ = (w.get ⟨i, h⟩).title := by
      rw [List.get_map]
    have htitles : ((w.set i (bump (w.get ⟨i, h⟩) d)).map (fun q => q.title))
        = w.map (fun q => q.title) := by
      rw [List.map_set]
      show (w.map (fun q => q.title)).set i (w.get ⟨i, h⟩).title = _
      rw [← hgetmap, set_get_self]
    have hnd2 : (((w.set i (bump (w.get ⟨i, h⟩) d))).map (fun q => q.title)).Nodup := by
      rw [htitles]
      exact hnd
    have hlen2 : i < (w.set i (bump (w.get ⟨i, h⟩) d)).length := by simpa using h
    have hr2 : bump (w.get ⟨i, h⟩) d ∈ w.set i (bump (w.get ⟨i, h⟩) d) := by
      have hg : (w.set i (bump (w.get ⟨i, h⟩) d)).get ⟨i, hlen2⟩
          = bump (w.get ⟨i, h⟩) d := List.getElem_set_self hlen2
      have hmem := List.get_mem (w.set i (bump (w.get ⟨i, h⟩) d)) i hlen2
      rw [hg] at hmem
      exact hmem
    have hlook1 : log_lookup w (w.get ⟨i, h⟩).title = logPop (w.get ⟨i, h⟩).reviewers :=
      log_lookup_eq w hnd _ hr
    have hlook2 : log_lookup (w.set i (bump (w.get ⟨i, h⟩) d)) (w.get ⟨i, h⟩).title
        = logPop ((w.get ⟨i, h⟩).reviewers + d) := by
      have := log_lookup_eq _ hnd2 _ hr2
      simpa [bump] using this
    have hmaplen2 : i < (w.map (fun q => logPop q.reviewers)).length := by simpa using h
    have hupper2 : upper (w.set i (bump (w.get ⟨i, h⟩) d))
        = max (upper w) (logPop ((w.get ⟨i, h⟩).reviewers + d)) := by
      rw [upper_eq w hnd, upper_eq _ hnd2, List.map_set]
      show ((w.map (fun q => logPop q.reviewers)).set i
          (logPop ((w.get ⟨i, h⟩).reviewers + d))).foldr max 0 = _
      rw [foldr_max_set _ i hmaplen2 _ ?_]
      rw [List.get_map]
      exact logPop_mono (Nat.le_add_right _ _)
    have hLU : logPop (w.get ⟨i, h⟩).reviewers ≤ upper w := by
      rw [upper_eq w hnd]
      exact mem_le_foldr_max _ _ (List.mem_map_of_mem _ hr)
    unfold normPopularity
    rw [hlook1, hlook2, hupper2]
    exact div_max_mono _ _ _ (logPop_nonneg _) hLU hU
      (logPop_mono (Nat.le_add_right _ _))
  · intro r hr hmax
    have hlook : log_lookup w r.title = logPop r.reviewers := log_lookup_eq w hnd r hr
    have hup : upper w = logPop r.reviewers := by
      rw [upper_eq w hnd]
      apply foldr_max_eq_of_mem_max
      · exact List.mem_map_of_mem _ hr
      · intro y hy
        rcases List.mem_map.1 hy with ⟨q, hq, rfl⟩
        exact logPop_mono (hmax q hq)
      · exact logPop_nonneg _
    have hposr : 0 < logPop r.reviewers := by
      rcases hpos with ⟨q, hq, hqc⟩
      exact logPop_pos (lt_of_lt_of_le hqc (hmax q hq))
    unfold normPopularity
    rw [hlook, hup]
    field_simp

/-- Witness for C5 (amended) at a concrete two-record wishlist. -/
theorem c5_norm_popularity_witness :
    (∀ (i : Nat) (h : i < ([⟨"A", 4, 0⟩, ⟨"B", 5, 99⟩] : List Rating).length) (d : Nat),
        normPopularity [⟨"A", 4, 0⟩, ⟨"B", 5, 99⟩]
            (([⟨"A", 4, 0⟩, ⟨"B", 5, 99⟩] : List Rating).get ⟨i, h⟩).title
          ≤ normPopularity (([⟨"A", 4, 0⟩, ⟨"B", 5, 99⟩] : List Rating).set i
              (bump (([⟨"A", 4, 0⟩, ⟨"B", 5, 99⟩] : List Rating).get ⟨i, h⟩) d))
            (([⟨"A", 4, 0⟩, ⟨"B", 5, 99⟩] : List Rating).get ⟨i, h⟩).title) ∧
    (∀ r ∈ ([⟨"A", 4, 0⟩, ⟨"B", 5, 99⟩] : List Rating),
        (∀ q ∈ ([⟨"A", 4, 0⟩, ⟨"B", 5, 99⟩] : List Rating), q.reviewers ≤ r.reviewers) →
        normPopularity [⟨"A", 4, 0⟩, ⟨"B", 5, 99⟩] r.title = 5) :=
  c5_norm_popularity [⟨"A", 4, 0⟩, ⟨"B", 5, 99⟩] (by decide) (by decide)

theorem logPop_zero : logPop 0 = 0 := by
  unfold logPop
  norm_num

theorem logPop99_pos : 0 < logPop 99 := logPop_pos (by norm_num)

theorem upper_pair_eq (w : List Rating)
    (h : (review_dict w).map (fun p => logPop p.2) = [logPop 0, logPop 99]
       ∨ (review_dict w).map (fun p => logPop p.2) = [logPop 99, logPop 0]) :
    upper w = logPop 99 := by
  unfold upper
  rcases h with h | h <;> rw [h]
  · show max (logPop 0) (max (logPop 99) 0) = logPop 99
    rw [logPop_zero, max_eq_left (le_of_lt logPop99_pos),
      max_eq_right (le_of_lt logPop99_pos)]
  · show max (logPop 99) (max (logPop 0) 0) = logPop 99
    rw [logPop_zero, max_self, max_eq_left (le_of_lt logPop99_pos)]

theorem insertionSort_pair_swap (w : List Rating) (x y : Rating)
    (h : ¬ score w y ≤ score w x) :
    List.insertionSort (fun a b => score w b ≤ score w a) [x, y] = [y, x] := by
  simp only [List.insertionSort, List.orderedInsert]
  rw [if_neg h]

theorem insertionSort_pair_keep (w : List Rating) (x y : Rating)
    (h : score w y ≤ score w x) :
    List.insertionSort (fun a b => score w b ≤ score w a) [x, y] = [x, y] := by
  simp only [List.insertionSort, List.orderedInsert]
  rw [if_pos h]

/-- C8 counterexample: with A = (reviewCount 0, rating 5) first in the
input and B = (reviewCount 99, rating 0), both scores are 0, the
stable sort keeps the input order, and the ranking places A before B —
so the claimed "B before A regardless of the raw average ratings"
fails when B's average rating is 0. -/
theorem c8_counterexample :
    rank_reviews [⟨"A", 5, 0⟩, ⟨"B", 0, 99⟩]
      = .ok [⟨"A", 5, 0⟩, ⟨"B", 0, 99⟩] ∧
    (⟨"A", 5, 0⟩ : Rating) ≠ ⟨"B", 0, 99⟩ := by
  constructor
  · have hA : score [⟨"A", 5, 0⟩, ⟨"B", 0, 99⟩] ⟨"A", 5, 0⟩ = 0 := by
      unfold score normPopularity
      have hl : log_lookup [⟨"A", 5, 0⟩, ⟨"B", 0, 99⟩] "A" = logPop 0 := rfl
      show (5 : ℚ) * (5 * log_lookup [⟨"A", 5, 0⟩, ⟨"B", 0, 99⟩] "A"
        / upper [⟨"A", 5, 0⟩, ⟨"B", 0, 99⟩]) = 0
      rw [hl, logPop_zero]
      simp
    have hB : score [⟨"A", 5, 0⟩, ⟨"B", 0, 99⟩] ⟨"B", 0, 99⟩ = 0 := by
      unfold score
      show ((0 : ℚ) : ℝ) * _ = 0
      simp
    have hw : rank_reviews [⟨"A", 5, 0⟩, ⟨"B", 0, 99⟩]
        = .ok (List.insertionSort
            (fun a b => score [⟨"A", 5, 0⟩, ⟨"B", 0, 99⟩] b
              ≤ score [⟨"A", 5, 0⟩, ⟨"B", 0, 99⟩] a)
            [⟨"A", 5, 0⟩, ⟨"B", 0, 99⟩]) := rfl
    rw [hw]
    congr 1
    apply insertionSort_pair_keep
    rw [hA, hB]
  · decide

/-- C8 (amended): for the two-record wishlist A (reviewCount 0) and B
(reviewCount 99) with distinct titles and ratings in [0, 5], B's
normalized popularity is exactly 5 and A's exactly 0; provided B's
average rating is nonzero, the final order places B before A whichever
of them comes first in the input.  (When B's rating is 0 both scores
are 0 and the stable sort keeps the input order, see the
counterexample.) -/
theorem c8_two_record_ranking (aA aB : ℚ)
    (hA0 : 0 ≤ aA) (hA5 : aA ≤ 5) (hB0 : 0 ≤ aB) (hB5 : aB ≤ 5) (hBne : aB ≠ 0) :
    normPopularity [⟨"A", aA, 0⟩, ⟨"B", aB, 99⟩] "B" = 5 ∧
    normPopularity [⟨"A", aA, 0⟩, ⟨"B", aB, 99⟩] "A" = 0 ∧
    rank_reviews [⟨"A", aA, 0⟩, ⟨"B", aB, 99⟩]
      = .ok [⟨"B", aB, 99⟩, ⟨"A", aA, 0⟩] ∧
    rank_reviews [⟨"B", aB, 99⟩, ⟨"A", aA, 0⟩]
      = .ok [⟨"B", aB, 99⟩, ⟨"A", aA, 0⟩] := by
  have haB : (0 : ℝ) < (aB : ℝ) := by
    have : (0 : ℚ) < aB := lt_of_le_of_ne hB0 (Ne.symm hBne)
    exact_mod_cast this
  have hnormB1 : normPopularity [⟨"A", aA, 0⟩, ⟨"B", aB, 99⟩] "B" = 5 := by
    unfold normPopularity
    have hl : log_lookup [⟨"A", aA, 0⟩, ⟨"B", aB, 99⟩] "B" = logPop 99 := rfl
    have hu : upper [⟨"A", aA, 0⟩, ⟨"B", aB, 99⟩] = logPop 99 :=
      upper_pair_eq _ (Or.inl rfl)
    rw [hl, hu, mul_div_assoc, div_self (ne_of_gt logPop99_pos), mul_one]
  have hnormA1 : normPopularity [⟨"A", aA, 0⟩, ⟨"B", aB, 99⟩] "A" = 0 := by
    unfold normPopularity
    have hl : log_lookup [⟨"A", aA, 0⟩, ⟨"B", aB, 99⟩] "A" = logPop 0 := rfl
    rw [hl, logPop_zero]
    simp
  have hnormB2 : normPopularity [⟨"B", aB, 99⟩, ⟨"A", aA, 0⟩] "B" = 5 := by
    unfold normPopularity
    have hl : log_lookup [⟨"B", aB, 99⟩, ⟨"A", aA, 0⟩] "B" = logPop 99 := rfl
    have hu : upper [⟨"B", aB, 99⟩, ⟨"A", aA, 0⟩] = logPop 99 :=
      upper_pair_eq _ (Or.inr rfl)
    rw [hl, hu, mul_div_assoc, div_self (ne_of_gt logPop99_pos), mul_one]
  have hnormA2 : normPopularity [⟨"B", aB, 99⟩, ⟨"A", aA, 0⟩] "A" = 0 := by
    unfold normPopularity
    have hl : log_lookup [⟨"B", aB, 99⟩, ⟨"A", aA, 0⟩] "A" = logPop 0 := rfl
    rw [hl, logPop_zero]
    simp
  have hsA1 : score [⟨"A", aA, 0⟩, ⟨"B", aB, 99⟩] ⟨"A", aA, 0⟩ = 0 := by
    unfold score
    show ((aA : ℚ) : ℝ) * normPopularity [⟨"A", aA, 0⟩, ⟨"B", aB, 99⟩] "A" = 0
    rw [hnormA1]
    ring
  have hsB1 : score [⟨"A", aA, 0⟩, ⟨"B", aB, 99⟩] ⟨"B", aB, 99⟩ = (aB : ℝ) * 5 := by
    unfold score
    show ((aB : ℚ) : ℝ) * normPopularity [⟨"A", aA, 0⟩, ⟨"B", aB, 99⟩] "B" = _
    rw [hnormB1]
  have hsA2 : score [⟨"B", aB, 99⟩, ⟨"A", aA, 0⟩] ⟨"A", aA, 0⟩ = 0 := by
    unfold score
    show ((aA : ℚ) : ℝ) * normPopularity [⟨"B", aB, 99⟩, ⟨"A", aA, 0⟩] "A" = 0
    rw [hnormA2]
    ring
  have hsB2 : score [⟨"B", aB, 99⟩, ⟨"A", aA, 0⟩] ⟨"B", aB, 99⟩ = (aB : ℝ) * 5 := by
    unfold score
    show ((aB : ℚ) : ℝ) * normPopularity [⟨"B", aB, 99⟩, ⟨"A", aA, 0⟩] "B" = _
    rw [hnormB2]
  refine ⟨hnormB1, hnormA1, ?_, ?_⟩
  · have hw : rank_reviews [⟨"A", aA, 0⟩, ⟨"B", aB, 99⟩]
        = .ok (List.insertionSort
            (fun a b => score [⟨"A", aA, 0⟩, ⟨"B", aB, 99⟩] b
              ≤ score [⟨"A", aA, 0⟩, ⟨"B", aB, 99⟩] a)
            [⟨"A", aA, 0⟩, ⟨"B", aB, 99⟩]) := rfl
    rw [hw]
    congr 1
    apply insertionSort_pair_swap
    rw [hsA1, hsB1]
    nlinarith
  · have hw : rank_reviews [⟨"B", aB, 99⟩, ⟨"A", aA, 0⟩]
        = .ok (List.insertionSort
            (fun a b => score [⟨"B", aB, 99⟩, ⟨"A", aA, 0⟩] b
              ≤ score [⟨"B", aB, 99⟩, ⟨"A", aA, 0⟩] a)
            [⟨"B", aB, 99⟩, ⟨"A", aA, 0⟩]) := rfl
    rw [hw]
    congr 1
    apply insertionSort_pair_keep
    rw [hsA2, hsB2]
    nlinarith

/-- Witness for C8 (amended) at concrete average ratings. -/
theorem c8_two_record_ranking_witness :
    normPopularity [⟨"A", 5, 0⟩, ⟨"B", 1, 99⟩] "B" = 5 ∧
    normPopularity [⟨"A", 5, 0⟩, ⟨"B", 1, 99⟩] "A" = 0 ∧
    rank_reviews [⟨"A", 5, 0⟩, ⟨"B", 1, 99⟩]
      = .ok [⟨"B", 1, 99⟩, ⟨"A", 5, 0⟩] ∧
    rank_reviews [⟨"B", 1, 99⟩, ⟨"A", 5, 0⟩]
      = .ok [⟨"B", 1, 99⟩, ⟨"A", 5, 0⟩] :=
  c8_two_record_ranking 5 1 (by norm_num) (by norm_num) (by norm_num) (by norm_num)
    (by norm_num)

/-- The positional-argument signature of a dataclass constructor: how
many fields are required and how many carry defaults. -/
structure DataclassSig where
  required : Nat
  optional : Nat
deriving DecidableEq, Repr

/-- Signature of `models.Rating` (`src/models.py` lines 21-26): title,
average_rating, num_star_ratings and reviewers, none with a default. -/
def modelsRatingSig : DataclassSig := ⟨4, 0⟩

/-- The local `Rating` of `src/script.py` lines 52-56: title,
average_rating and reviewers, none with a default. -/
def scriptRatingSig : DataclassSig := ⟨3, 0⟩

/-- Python positional binding: a call with `nargs` positional arguments
succeeds exactly when it covers every required field and does not
overflow the field list; otherwise the interpreter raises `TypeError`. -/
def callOk (sig : DataclassSig) (nargs : Nat) : Bool :=
  sig.required ≤ nargs && nargs ≤ sig.required + sig.optional

/-- One wishlist product as the commerce client returns it: the three
values `get_wishlisted` reads (`book.title`,
`book.rating.overall_distribution.average_rating`,
`book.rating.num_reviews`). -/
structure WishProduct where
  title : String
  average_rating : ℚ
  num_reviews : Nat
deriving DecidableEq, Repr

/-- One page of the paginated wishlist query. -/
structure WishPage where
  total_results : Nat
  products : List WishProduct
deriving Repr

/-- The per-product constructor call `Rating(title, average, reviews)`
of `get_wishlisted` (`src/audible_client.py` lines 79-86,
`src/script.py` lines 115-121), with exactly three positional
arguments against the given signature.  The successful value is the
three-field record (the four-field `models.Rating` is never
constructed, since with its signature the call raises before
construction). -/
def mkRatingCall (sig : DataclassSig) (b : WishProduct) : Except String Rating :=
  if callOk sig 3 then .ok ⟨b.title, b.average_rating, b.num_reviews⟩
  else .error "TypeError: Rating.__init__() missing 1 required positional argument: reviewers"

/-- Embedding of `wishlist.extend(Rating(...) for book in result.products)`: the
generator is consumed element by element, so the first mismatching
constructor call raises. -/
def extendRatings (sig : DataclassSig) (products : List WishProduct) :
    Except String (List Rating) :=
  products.mapM (mkRatingCall sig)

/-- The pagination loop of `get_wishlisted` after page 0: keep fetching
while `page * page_size < wishlisted` (page_size is 50 and
`wishlisted` is the `total_results` reported by page 0). -/
def wishLoop (sig : DataclassSig) (client : Nat → WishPage) (wishlisted page : Nat)
    (acc : List Rating) : Except String (List Rating) :=
  if h : page * 50 < wishlisted then
    match extendRatings sig (client page).products with
    | .error e => .error e
    | .ok rs => wishLoop sig client wishlisted (page + 1) (acc ++ rs)
  else .ok acc
termination_by wishlisted - page * 50
decreasing_by omega

/-- Embedding of `get_wishlisted`, parametric in the `Rating`
signature the variant resolves (the two variants differ only there).
The loop starts at page 0 with `wishlisted = 1`, so page 0 is always
fetched; its `total_results` then bounds the remaining pages. -/
def get_wishlisted (sig : DataclassSig) (client : Nat → WishPage) :
    Except String (List Rating) :=
  match extendRatings sig (client 0).products with
  | .error e => .error e
  | .ok rs => wishLoop sig client (client 0).total_results 1 rs

/-- The products of the pages the loop visits from `page` on, with
structural fuel (any fuel at least `total - page * 50` is exact). -/
def pagesProducts (client : Nat → WishPage) (total : Nat) :
    Nat → Nat → List WishProduct
  | 0, _ => []
  | fuel + 1, page =>
    if page * 50 < total then (client page).products
      ++ pagesProducts client total fuel (page + 1)
    else []

/-- Every product of every page the pagination walk of
`get_wishlisted` visits: page 0 always, then each page `p ≥ 1` with
`p * 50 < total_results`. -/
def walkedProducts (client : Nat → WishPage) : List WishProduct :=
  (client 0).products
    ++ pagesProducts client (client 0).total_results (client 0).total_results 1

theorem pagesProducts_succ (client : Nat → WishPage) (total fuel page : Nat) :
    pagesProducts client total (fuel + 1) page
      = if page * 50 < total then (client page).products
          ++ pagesProducts client total fuel (page + 1)
        else [] := rfl

theorem extendRatings_ok (sig : DataclassSig) (hok : callOk sig 3 = true) :
    ∀ products : List WishProduct,
      extendRatings sig products
        = .ok (products.map
            (fun b => (⟨b.title, b.average_rating, b.num_reviews⟩ : Rating))) := by
  intro products
  induction products with
  | nil => rfl
  | cons b bs ih =>
    unfold extendRatings at ih ⊢
    rw [List.mapM_cons]
    have hb : mkRatingCall sig b = .ok ⟨b.title, b.average_rating, b.num_reviews⟩ := by
      simp [mkRatingCall, hok]
    rw [hb, ih]
    simp [bind, Except.bind, pure, Except.pure]

theorem extendRatings_error (sig : DataclassSig) (hbad : callOk sig 3 = false)
    (b : WishProduct) (bs : List WishProduct) :
    extendRatings sig (b :: bs)
      = .error "TypeError: Rating.__init__() missing 1 required positional argument: reviewers" := by
  unfold extendRatings
  rw [List.mapM_cons]
  have hb : mkRatingCall sig b
      = .error "TypeError: Rating.__init__() missing 1 required positional argument: reviewers" := by
    simp [mkRatingCall, hbad]
  rw [hb]
  rfl

theorem wishLoop_ok (sig : DataclassSig) (client : Nat → WishPage)
    (hok : callOk sig 3 = true) :
    ∀ (fuel total page : Nat), total - page * 50 ≤ fuel →
      ∀ acc : List Rating,
      wishLoop sig client total page acc
        = .ok (acc ++ (pagesProducts client total fuel page).map
            (fun b => (⟨b.title, b.average_rating, b.num_reviews⟩ : Rating))) := by
  intro fuel
  induction fuel with
  | zero =>
    intro total page hle acc
    have hnlt : ¬ page * 50 < total := by omega
    unfold wishLoop
    rw [dif_neg hnlt]
    show Except.ok acc = .ok (acc ++ ([] : List WishProduct).map _)
    simp
  | succ fuel ih =>
    intro total page hle acc
    rw [pagesProducts_succ]
    by_cases hlt : page * 50 < total
    · unfold wishLoop
      rw [dif_pos hlt, extendRatings_ok sig hok, if_pos hlt]
      show wishLoop sig client total (page + 1)
          (acc ++ ((client page).products).map
            (fun b => (⟨b.title, b.average_rating, b.num_reviews⟩ : Rating))) = _
      rw [ih total (page + 1) (by omega)]
      rw [List.map_append, List.append_assoc]
    · unfold wishLoop
      rw [dif_neg hlt, if_neg hlt]
      show Except.ok acc = .ok (acc ++ ([] : List WishProduct).map _)
      simp

theorem wishLoop_bad (sig : DataclassSig) (client : Nat → WishPage)
    (hbad : callOk sig 3 = false) :
    ∀ (fuel total page : Nat), total - page * 50 ≤ fuel →
      ∀ acc : List Rating,
      (pagesProducts client total fuel page = [] →
        wishLoop sig client total page acc = .ok acc) ∧
      (pagesProducts client total fuel page ≠ [] →
        wishLoop sig client total page acc
          = .error "TypeError: Rating.__init__() missing 1 required positional argument: reviewers") := by
  intro fuel
  induction fuel with
  | zero =>
    intro total page hle acc
    have hnlt : ¬ page * 50 < total := by omega
    constructor
    · intro _
      unfold wishLoop
      rw [dif_neg hnlt]
    · intro hne
      exact absurd rfl hne
  | succ fuel ih =>
    intro total page hle acc
    by_cases hlt : page * 50 < total
    · cases hp : (client page).products with
      | nil =>
        have hpp : pagesProducts client total (fuel + 1) page
            = pagesProducts client total fuel (page + 1) := by
          rw [pagesProducts_succ, if_pos hlt, hp]
          rfl
        have hstep : wishLoop sig client total page acc
            = wishLoop sig client total (page + 1) acc := by
          conv_lhs => rw [wishLoop]
          rw [dif_pos hlt, hp]
          show wishLoop sig client total (page + 1) (acc ++ []) = _
          rw [List.append_nil]
        rw [hpp, hstep]
        exact ih total (page + 1) (by omega) acc
      | cons b bs =>
        have hpp : pagesProducts client total (fuel + 1) page
            = b :: (bs ++ pagesProducts client total fuel (page + 1)) := by
          rw [pagesProducts_succ, if_pos hlt, hp]
          rfl
        constructor
        · intro hcon
          rw [hpp] at hcon
          exact absurd hcon (by simp)
        · intro _
          conv_lhs => rw [wishLoop]
          rw [dif_pos hlt, hp, extendRatings_error sig hbad b bs]
    · have hpp : pagesProducts client total (fuel + 1) page = [] := by
        rw [pagesProducts_succ, if_neg hlt]
      constructor
      · intro _
        conv_lhs => rw [wishLoop]
        rw [dif_neg hlt]
      · intro hne
        exact absurd hpp hne

/-- C10: the modular variant's `get_wishlisted` applies `models.Rating`
(four required fields) to three values, so any walked page with at
least one product makes it raise `TypeError` instead of returning a
rating list, while the `script.py` variant, whose local three-field
`Rating` matches the call, returns the full rating list on the same
input. -/
theorem c10_rating_arity (client : Nat → WishPage) :
    (walkedProducts client ≠ [] →
      get_wishlisted modelsRatingSig client
        = .error "TypeError: Rating.__init__() missing 1 required positional argument: reviewers") ∧
    get_wishlisted scriptRatingSig client
      = .ok ((walkedProducts client).map
          (fun b => (⟨b.title, b.average_rating, b.num_reviews⟩ : Rating))) := by
  have hbad : callOk modelsRatingSig 3 = false := rfl
  have hok : callOk scriptRatingSig 3 = true := rfl
  constructor
  · intro hne
    unfold get_wishlisted
    cases hp0 : (client 0).products with
    | cons b bs =>
      rw [extendRatings_error modelsRatingSig hbad b bs]
    | nil =>
      show wishLoop modelsRatingSig client (client 0).total_results 1 [] = _
      have hpp : pagesProducts client (client 0).total_results (client 0).total_results 1
          ≠ [] := by
        unfold walkedProducts at hne
        rw [hp0] at hne
        simpa using hne
      exact (wishLoop_bad modelsRatingSig client hbad (client 0).total_results
        (client 0).total_results 1 (by omega) []).2 hpp
  · unfold get_wishlisted walkedProducts
    rw [extendRatings_ok scriptRatingSig hok]
    show wishLoop scriptRatingSig client (client 0).total_results 1 _ = _
    rw [wishLoop_ok scriptRatingSig client hok (client 0).total_results
      (client 0).total_results 1 (by omega), List.map_append]

/-- Witness for C10 at a concrete two-page wishlist client. -/
theorem c10_rating_arity_witness :
    get_wishlisted modelsRatingSig (fun _ => ⟨60, [⟨"W", 4, 7⟩]⟩)
      = .error "TypeError: Rating.__init__() missing 1 required positional argument: reviewers" ∧
    get_wishlisted scriptRatingSig (fun _ => ⟨60, [⟨"W", 4, 7⟩]⟩)
      = .ok ((walkedProducts (fun _ => ⟨60, [⟨"W", 4, 7⟩]⟩)).map
          (fun b => (⟨b.title, b.average_rating, b.num_reviews⟩ : Rating))) :=
  ⟨(c10_rating_arity (fun _ => ⟨60, [⟨"W", 4, 7⟩]⟩)).1 (by decide),
   (c10_rating_arity (fun _ => ⟨60, [⟨"W", 4, 7⟩]⟩)).2⟩

end Audible
